import Mathlib

/-!
Verification of the Quantik rules engine and decision engine
(`core/types.py`, `core/rules.py`, `gui/app.py` placement sequence,
`ai_players/ulysse/algorithme.py`) as a shallow embedding.

Conventions of the embedding:
* Python's 4×4 matrix of `Piece`-or-`None` becomes `Board := Fin 4 → Fin 4 → Option Piece`.
* In-place mutation (`board[r][c] = piece` … `board[r][c] = old_piece`) becomes
  explicit state passing through `setCell`; recursive search threads the board
  and returns it, so "the board is restored" is the theorem that the returned
  board equals the input board.
* `time.time() - start_time > self.max_time` becomes an arbitrary oracle
  `tmo : Nat → Bool` consulted at a counter that is threaded and incremented at
  every deadline check; theorems quantify over every oracle, which covers every
  possible expiry point (Python's clock is one particular monotone oracle).
* `float` scores become exact rationals, and `math.inf` / `-math.inf` become
  the two extra points of the order `XR`.
* The `try/except` of `get_move` becomes an explicit `fault : Bool` parameter
  selecting the emergency path.
-/

namespace Quantik

/-- The four shapes, in the declaration order of `core/types.py`. -/
inductive Shape where
  | circle
  | square
  | triangle
  | diamond
deriving DecidableEq, Repr, Fintype

/-- Iteration order of `for shape in Shape` (Python enum order). -/
def Shape.all : List Shape := [.circle, .square, .triangle, .diamond]

/-- The two players of `core/types.py`. -/
inductive Player where
  | player1
  | player2
deriving DecidableEq, Repr, Fintype

/-- The opponent, as computed in `QuantikAI.__init__`. -/
def Player.other : Player → Player
  | .player1 => .player2
  | .player2 => .player1

/-- A piece on the board: `(shape, player)` as in `core/types.py`. -/
structure Piece where
  shape : Shape
  player : Player
deriving DecidableEq, Repr

/-- The 4×4 matrix of `Piece` or `None`. -/
abbrev Board := Fin 4 → Fin 4 → Option Piece

/-- A move `(row, col, shape)`. -/
abbrev Move := Fin 4 × Fin 4 × Shape

/-- The empty board of `QuantikBoard.__init__`. -/
def emptyBoard : Board := fun _ _ => none

/-- Writing a cell of the matrix (`board[r][c] = v`). -/
def setCell (b : Board) (r c : Fin 4) (v : Option Piece) : Board :=
  fun r' c' => if r' = r ∧ c' = c then v else b r' c'

/-- The 2×2 zones of `core/rules.py` (`ZONES`), indexed 0..3. -/
def ZONES : Fin 4 → List (Fin 4 × Fin 4)
  | 0 => [(0, 0), (0, 1), (1, 0), (1, 1)]
  | 1 => [(0, 2), (0, 3), (1, 2), (1, 3)]
  | 2 => [(2, 0), (2, 1), (3, 0), (3, 1)]
  | 3 => [(2, 2), (2, 3), (3, 2), (3, 3)]

/-- `zone_index` of `core/rules.py`. -/
def zone_index (r c : Fin 4) : Fin 4 :=
  if r.val < 2 then (if c.val < 2 then 0 else 1)
  else (if c.val < 2 then 2 else 3)

/-- One cell holding a piece of the same shape as `piece` but of the other
player: the disqualifying condition in the loops of
`QuantikBoard.is_valid_move`. -/
def conflictAt (b : Board) (piece : Piece) (r c : Fin 4) : Bool :=
  match b r c with
  | some p => decide (p.shape = piece.shape) && decide (p.player ≠ piece.player)
  | none => false

/-- `QuantikBoard.is_valid_move` of `core/rules.py`: the target cell must be
empty and no cell of the row, the column, or the 2×2 zone may hold the same
shape owned by the other player. -/
def is_valid_move (b : Board) (row col : Fin 4) (piece : Piece) : Bool :=
  if (b row col).isSome then false
  else
    !((List.finRange 4).any fun c => conflictAt b piece row c) &&
    !((List.finRange 4).any fun r => conflictAt b piece r col) &&
    !((ZONES (zone_index row col)).any fun rc => conflictAt b piece rc.1 rc.2)

/-- `QuantikBoard.place_piece` of `core/rules.py`: validate, then write the
cell; the inventory is not touched here. -/
def place_piece (b : Board) (row col : Fin 4) (piece : Piece) : Bool × Board :=
  if is_valid_move b row col piece then (true, setCell b row col (some piece))
  else (false, b)

/-- `QuantikBoard._all_diff`: no empty cell and four pairwise different shapes
(`len({p.shape for p in pieces}) == 4`, i.e. the deduplicated shape list has
length four). -/
def all_diff (pieces : List (Option Piece)) : Bool :=
  if pieces.any (·.isNone) then false
  else decide (((pieces.filterMap id).map Piece.shape).dedup.length = 4)

/-- The cells of row `r` in column order. -/
def rowCells (r : Fin 4) : List (Fin 4 × Fin 4) :=
  (List.finRange 4).map fun c => (r, c)

/-- The cells of column `c` in row order. -/
def colCells (c : Fin 4) : List (Fin 4 × Fin 4) :=
  (List.finRange 4).map fun r => (r, c)

/-- The 12 lines (4 rows, then 4 columns, then 4 zones), in the order all of
the Python code enumerates them (`check_victory`, and the `all_lines` lists
rebuilt in `ai_players/ulysse/algorithme.py`). -/
def all_lines : List (List (Fin 4 × Fin 4)) :=
  ((List.finRange 4).map rowCells) ++ ((List.finRange 4).map colCells) ++
    [ZONES 0, ZONES 1, ZONES 2, ZONES 3]

/-- The contents of a line's cells (`[self.board[r][c] for (r, c) in cells]`). -/
def cellPieces (b : Board) (line : List (Fin 4 × Fin 4)) : List (Option Piece) :=
  line.map fun rc => b rc.1 rc.2

/-- `QuantikBoard.check_victory`: some line is fully occupied with four
pairwise different shapes. -/
def check_victory (b : Board) : Bool :=
  all_lines.any fun line => all_diff (cellPieces b line)

/-- `QuantikBoard.has_valid_moves`. -/
def has_valid_moves (b : Board) (player : Player) : Bool :=
  Shape.all.any fun shape =>
    (List.finRange 4).any fun r =>
      (List.finRange 4).any fun c =>
        (b r c).isNone && is_valid_move b r c ⟨shape, player⟩

/-- The full game state the GUI maintains: board plus per-player remaining
piece counts (`self.pieces_count`, plain Python ints). -/
structure GameState where
  board : Board
  inventory : Player → Shape → Int

/-- Initial inventory: two pieces of every shape for both players. -/
def initialInventory : Player → Shape → Int := fun _ _ => 2

/-- The placement sequence the callers in `gui/app.py` perform
(`place_piece` / `_execute_ai_move`): call `QuantikBoard.place_piece`, and on
success decrement `pieces_count[player][shape]`; on failure nothing changes.
This is the state-level `apply` of the design. -/
def applyMove (st : GameState) (row col : Fin 4) (shape : Shape) (player : Player) :
    Bool × GameState :=
  match place_piece st.board row col ⟨shape, player⟩ with
  | (true, b') =>
      (true,
       ⟨b', fun p s =>
          if p = player ∧ s = shape then st.inventory p s - 1 else st.inventory p s⟩)
  | (false, _) => (false, st)

/-! ### `ai_players/ulysse/algorithme.py` — validity, move generation, threats -/

/-- `QuantikAI._get_zone_positions`. -/
def get_zone_positions (row col : Fin 4) : List (Fin 4 × Fin 4) :=
  if row.val < 2 ∧ col.val < 2 then [(0, 0), (0, 1), (1, 0), (1, 1)]
  else if row.val < 2 ∧ 2 ≤ col.val then [(0, 2), (0, 3), (1, 2), (1, 3)]
  else if 2 ≤ row.val ∧ col.val < 2 then [(2, 0), (2, 1), (3, 0), (3, 1)]
  else [(2, 2), (2, 3), (3, 2), (3, 3)]

/-- `QuantikAI._is_move_valid`: the AI's own re-implementation of the rule
check (empty target cell, no opposing piece of the same shape in the row,
column, or zone). -/
def is_move_valid (b : Board) (row col : Fin 4) (piece : Piece) : Bool :=
  if (b row col).isSome then false
  else
    !((List.finRange 4).any fun c => conflictAt b piece row c) &&
    !((List.finRange 4).any fun r => conflictAt b piece r col) &&
    !((get_zone_positions row col).any fun rc => conflictAt b piece rc.1 rc.2)

/-- `QuantikAI._generate_all_valid_moves`: row-major sweep of the cells,
skipping occupied cells, and for each free cell the shapes in declaration
order, keeping those that pass `_is_move_valid`. The inventory is not
consulted. -/
def generate_all_valid_moves (b : Board) (player : Player) : List Move :=
  (List.finRange 4).flatMap fun row =>
    (List.finRange 4).flatMap fun col =>
      if (b row col).isSome then []
      else (Shape.all.filter fun s => is_move_valid b row col ⟨s, player⟩).map
        fun s => (row, col, s)

/-- All 64 `(row, col, shape)` triples in row-major cell order with the
declared shape order inside each cell: the canonical enumeration order. -/
def canonicalMoves : List Move :=
  (List.finRange 4).flatMap fun row =>
    (List.finRange 4).flatMap fun col =>
      Shape.all.map fun s => (row, col, s)

/-- Modelled from the spec: `legalMoves(state, player)` as §4.1 words it — all
`(row, col, shape)` with `inventory[player][shape] > 0` and the legality check
true, in deterministic row-major then declared-shape order. Kept separate from
`generate_all_valid_moves` (the code) for comparison. -/
def legalMovesSpec (b : Board) (inventory : Player → Shape → Int) (player : Player) :
    List Move :=
  canonicalMoves.filter fun m =>
    decide (0 < inventory player m.2.2) && is_move_valid b m.1 m.2.1 ⟨m.2.2, player⟩

/-- Number of occupied cells (`pieces_played` in `get_move`). -/
def pieces_played (b : Board) : Nat :=
  ((List.finRange 4).flatMap fun r =>
    (List.finRange 4).filter fun c => (b r c).isSome).length

/-- `QuantikAI.__init__`: `self.base_depth = 4`. -/
def base_depth : Nat := 4

/-- `QuantikAI._calculate_optimal_depth`. -/
def calculate_optimal_depth (piecesPlayed : Nat) : Nat :=
  if piecesPlayed ≤ 4 then base_depth
  else if piecesPlayed ≤ 10 then base_depth + 2
  else base_depth + 4

/-- `QuantikAI._find_immediate_threats`: for each of the 12 lines, if exactly
3 cells are occupied with 3 different shapes, 1 cell is empty, and at least
one occupied cell belongs to `player`, report the list of empty positions. -/
def find_immediate_threats (b : Board) (player : Player) :
    List (List (Fin 4 × Fin 4)) :=
  all_lines.filterMap fun line =>
    let all_pieces := (cellPieces b line).filterMap id
    let empty_positions := line.filter fun rc => (b rc.1 rc.2).isNone
    if decide (all_pieces.length = 3) && decide (empty_positions.length = 1) &&
        decide ((all_pieces.map Piece.shape).dedup.length = 3) &&
        (all_pieces.any fun p => decide (p.player = player))
    then some empty_positions else none

/-- `QuantikAI._find_developing_threats`: same with 2 occupied cells bearing
2 different shapes and 2 empty cells. -/
def find_developing_threats (b : Board) (player : Player) :
    List (List (Fin 4 × Fin 4)) :=
  all_lines.filterMap fun line =>
    let all_pieces := (cellPieces b line).filterMap id
    let empty_positions := line.filter fun rc => (b rc.1 rc.2).isNone
    if decide (all_pieces.length = 2) && decide (empty_positions.length = 2) &&
        decide ((all_pieces.map Piece.shape).dedup.length = 2) &&
        (all_pieces.any fun p => decide (p.player = player))
    then some empty_positions else none

/-! ### Evaluation -/

/-- The four central cells, as listed throughout the Python file. -/
def centerCells : List (Fin 4 × Fin 4) := [(1, 1), (1, 2), (2, 1), (2, 2)]

/-- `QuantikAI._get_position_value`. -/
def get_position_value (row col : Fin 4) : ℚ :=
  if (row, col) ∈ centerCells then 20
  else if row.val = 1 ∨ row.val = 2 ∨ col.val = 1 ∨ col.val = 2 then 10
  else 5

/-- `QuantikAI._evaluate_line_potential`. -/
def evaluate_line_potential (pieces : List (Option Piece)) (player : Player) : Int :=
  let my_pieces := (pieces.filterMap id).filter fun p => decide (p.player = player)
  let opp_pieces := (pieces.filterMap id).filter fun p => decide (p.player ≠ player)
  let empty_count := (pieces.filter (·.isNone)).length
  if opp_pieces ≠ [] then 0
  else if my_pieces = [] then 0
  else
    let my_shapes := (my_pieces.map Piece.shape).dedup.length
    if my_shapes = my_pieces.length ∧ my_shapes + empty_count = 4 then
      if my_shapes = 3 then 10
      else if my_shapes = 2 then 3
      else if my_shapes = 1 then 1
      else 0
    else 0

/-- `QuantikAI._count_line_potential`: sum of the line potentials over the 12
lines. -/
def count_line_potential (b : Board) (player : Player) : Int :=
  (all_lines.map fun line => evaluate_line_potential (cellPieces b line) player).foldl
    (· + ·) 0

/-- `QuantikAI._evaluate_position` for the AI playing `me` (float arithmetic
modelled exactly over ℚ; `0.8 = 4/5`). -/
def evaluate_position (b : Board) (me : Player) : ℚ :=
  let positional : ℚ :=
    ((List.finRange 4).flatMap fun r => (List.finRange 4).map fun c => (r, c)).foldl
      (fun acc rc =>
        match b rc.1 rc.2 with
        | some piece =>
            if piece.player = me then acc + get_position_value rc.1 rc.2
            else acc - get_position_value rc.1 rc.2 * (4 / 5)
        | none => acc) 0
  let my_threats := count_line_potential b me
  let opp_threats := count_line_potential b me.other
  let opp_dev_threats := (find_developing_threats b me.other).length
  let opp_immediate_threats := (find_immediate_threats b me.other).length
  let my_moves := (generate_all_valid_moves b me).length
  let opp_moves := (generate_all_valid_moves b me.other).length
  positional + (my_threats : ℚ) * 50 - (opp_threats : ℚ) * 60 -
    (opp_dev_threats : ℚ) * 150 - (opp_immediate_threats : ℚ) * 300 +
    ((my_moves : ℚ) - (opp_moves : ℚ)) * 5

/-- `QuantikAI._is_winner`: some fully occupied line with 4 different shapes
holds at least one piece of `player`. -/
def is_winner (b : Board) (player : Player) : Bool :=
  all_lines.any fun line =>
    let pieces := cellPieces b line
    pieces.all (·.isSome) &&
    decide (((pieces.filterMap id).map Piece.shape).dedup.length = 4) &&
    ((pieces.filterMap id).any fun p => decide (p.player = player))

/-- `QuantikAI._emergency_move_selection`: a centre move if one exists,
otherwise the first valid move. -/
def emergency_move_selection (valid_moves : List Move) : Option Move :=
  if valid_moves = [] then none
  else
    match valid_moves.filter fun m => (m.1, m.2.1) ∈ centerCells with
    | m :: _ => some m
    | [] => valid_moves.head?

/-! ### Scores with `±math.inf` -/

/-- A score: a rational, or one of the two IEEE infinities used as sentinels
(`-math.inf`, `math.inf`). -/
inductive XR where
  | negInf
  | fin (q : ℚ)
  | posInf
deriving DecidableEq, Repr

/-- Boolean `≤` on scores (IEEE comparison with infinities). -/
def XR.ble : XR → XR → Bool
  | .negInf, _ => true
  | .fin _, .negInf => false
  | .fin a, .fin b => decide (a ≤ b)
  | .fin _, .posInf => true
  | .posInf, .posInf => true
  | .posInf, _ => false

/-- Boolean `<` on scores. -/
def XR.blt (a b : XR) : Bool := !(XR.ble b a)

/-- Python `max` on scores. -/
def XR.max (a b : XR) : XR := if XR.ble a b then b else a

/-- Python `min` on scores. -/
def XR.min (a b : XR) : XR := if XR.ble a b then a else b

/-! ### The tactical loops of `_minimax_root`, with the board threaded

Each Python loop that writes `board[row][col] = Piece(...)` and later restores
`board[row][col] = old_piece` is rendered as a recursion that passes the
mutated board along and returns the final board, so that restoration is a
provable property rather than an assumption. -/

/-- The "PRIORITÉ ABSOLUE" loop of `_minimax_root`: simulate each valid move
and return the first one for which `check_victory` holds, restoring the cell
each time. -/
def win_check_loop (me : Player) : Board → List Move → Option Move × Board
  | b, [] => (none, b)
  | b, (row, col, shape) :: rest =>
      let old := b row col
      let b1 := setCell b row col (some ⟨shape, me⟩)
      if check_victory b1 then (some (row, col, shape), setCell b1 row col old)
      else win_check_loop me (setCell b1 row col old) rest

/-- The single-threat blocking loop of `_minimax_root`: the first valid move
that lands on a threatened vacancy and, after simulation, leaves the opponent
with zero immediate threats. -/
def safe_block_loop (me : Player) (opponent_threats : List (List (Fin 4 × Fin 4))) :
    Board → List Move → Option Move × Board
  | b, [] => (none, b)
  | b, (row, col, shape) :: rest =>
      if opponent_threats.any fun tp => decide ((row, col) ∈ tp) then
        let old := b row col
        let b1 := setCell b row col (some ⟨shape, me⟩)
        let new_opponent_threats := find_immediate_threats b1 me.other
        let b2 := setCell b1 row col old
        if new_opponent_threats.length = 0 then (some (row, col, shape), b2)
        else safe_block_loop me opponent_threats b2 rest
      else safe_block_loop me opponent_threats b rest

/-- `QuantikAI._calculate_threat_dominance_bonus` (read-only on the board):
100 per opponent piece in the most opponent-dominated 3-distinct-shape line
through the blocking cell. The `opponent_threats` argument is received but,
as in the Python code, not used. -/
def calculate_threat_dominance_bonus (b : Board) (me : Player)
    (block_row block_col : Fin 4) (_opponent_threats : List (List (Fin 4 × Fin 4))) :
    Int :=
  all_lines.foldl
    (fun acc line =>
      if (block_row, block_col) ∈ line then
        let non_none := (cellPieces b line).filterMap id
        if decide (non_none.length = 3) &&
            decide ((non_none.map Piece.shape).dedup.length = 3) then
          Max.max acc
            (((non_none.filter fun p => decide (p.player = me.other)).length : Int) * 100)
        else acc
      else acc) 0

/-- The loop of `QuantikAI._find_best_blocking_move` over the valid moves,
board threaded. -/
def best_blocking_loop (me : Player) (opponent_threats : List (List (Fin 4 × Fin 4))) :
    Board → List Move → XR → Option Move → Option Move × Board
  | b, [], _, best_move => (best_move, b)
  | b, (row, col, shape) :: rest, best_score, best_move =>
      if opponent_threats.any fun tp => decide ((row, col) ∈ tp) then
        let dominance_bonus :=
          calculate_threat_dominance_bonus b me row col opponent_threats
        let old := b row col
        let b1 := setCell b row col (some ⟨shape, me⟩)
        let remaining := (find_immediate_threats b1 me.other).length
        let ours := (find_immediate_threats b1 me).length
        let score : Int := ((opponent_threats.length : Int) - (remaining : Int)) * 1000 +
          (ours : Int) * 500 + dominance_bonus - (remaining : Int) * 200
        let b2 := setCell b1 row col old
        if XR.blt best_score (XR.fin (score : ℚ)) then
          best_blocking_loop me opponent_threats b2 rest (XR.fin (score : ℚ))
            (some (row, col, shape))
        else best_blocking_loop me opponent_threats b2 rest best_score best_move
      else best_blocking_loop me opponent_threats b rest best_score best_move

/-- `QuantikAI._find_best_blocking_move`. -/
def find_best_blocking_move (me : Player)
    (opponent_threats : List (List (Fin 4 × Fin 4))) (b : Board)
    (valid_moves : List Move) : Option Move × Board :=
  best_blocking_loop me opponent_threats b valid_moves XR.negInf none

/-- The loop of `QuantikAI._find_most_dominant_threat` (read-only). -/
def most_dominant_loop (b : Board) (me : Player)
    (opponent_threats : List (List (Fin 4 × Fin 4))) :
    List Move → Int → Option Move → Option Move
  | [], _, best_move => best_move
  | (row, col, shape) :: rest, best_dominance, best_move =>
      if opponent_threats.any fun tp => decide ((row, col) ∈ tp) then
        let dominance :=
          calculate_threat_dominance_bonus b me row col opponent_threats
        if best_dominance < dominance then
          most_dominant_loop b me opponent_threats rest dominance
            (some (row, col, shape))
        else most_dominant_loop b me opponent_threats rest best_dominance best_move
      else most_dominant_loop b me opponent_threats rest best_dominance best_move

/-- `QuantikAI._find_most_dominant_threat`: regenerates the valid moves and
keeps the one with the highest dominance bonus among those landing on a
threatened position. -/
def find_most_dominant_threat (b : Board) (me : Player)
    (opponent_threats : List (List (Fin 4 × Fin 4))) : Option Move :=
  most_dominant_loop b me opponent_threats (generate_all_valid_moves b me) (-1) none

/-- The counter-attack loop of the developing-threat phase of `_minimax_root`:
skip any move handing the opponent an immediate threat, score the rest, keep
the best. -/
def dev_counter_loop (me : Player) (opponent_dev_threats : List (List (Fin 4 × Fin 4))) :
    Board → List Move → XR → Option Move → XR × Option Move × Board
  | b, [], best_score, best_move => (best_score, best_move, b)
  | b, (row, col, shape) :: rest, best_score, best_move =>
      let old := b row col
      let b1 := setCell b row col (some ⟨shape, me⟩)
      if 0 < (find_immediate_threats b1 me.other).length then
        dev_counter_loop me opponent_dev_threats (setCell b1 row col old) rest
          best_score best_move
      else
        let my_new_threats := (find_immediate_threats b1 me).length
        let my_dev_new_threats := (find_developing_threats b1 me).length
        let base : Int := (my_new_threats : Int) * 200 + (my_dev_new_threats : Int) * 100
        let counter_score : Int :=
          if opponent_dev_threats.any fun tp => decide ((row, col) ∈ tp) then base + 150
          else base
        let b2 := setCell b1 row col old
        if XR.blt best_score (XR.fin (counter_score : ℚ)) then
          dev_counter_loop me opponent_dev_threats b2 rest
            (XR.fin (counter_score : ℚ)) (some (row, col, shape))
        else dev_counter_loop me opponent_dev_threats b2 rest best_score best_move

/-- The key of `QuantikAI._sort_moves_by_priority` (the Python key simulates
the move and restores the cell before returning; here the simulated board `b1`
is local, so the input board is unchanged by construction). -/
def move_score (b : Board) (me : Player) (m : Move) : Int :=
  let (row, col, shape) := m
  let positional : Int :=
    if (row, col) ∈ centerCells then 100
    else if row.val = 1 ∨ row.val = 2 ∨ col.val = 1 ∨ col.val = 2 then 50
    else 0
  let b1 := setCell b row col (some ⟨shape, me⟩)
  let threats : Int := ((find_immediate_threats b1 me).length : Int) * 200
  let potential : Int := count_line_potential b1 me * 10
  Neg.neg (positional + threats + potential)

/-- `QuantikAI._sort_moves_by_priority`: Python's stable `sorted` ascending on
the key, i.e. a stable merge sort. -/
def sort_moves_by_priority (b : Board) (me : Player) (moves : List Move) : List Move :=
  moves.mergeSort fun m1 m2 => decide (move_score b me m1 ≤ move_score b me m2)

/-! ### `_minimax` (alpha-beta), board and clock threaded -/

/-- The maximizing loop of `_minimax`: `f` is the recursive call one ply
deeper. Returns (value, board, clock). -/
def ab_max_loop (f : Board → XR → XR → Nat → XR × Board × Nat) (current : Player) :
    Board → List Move → XR → XR → XR → Nat → XR × Board × Nat
  | b, [], max_eval, _, _, t => (max_eval, b, t)
  | b, (row, col, shape) :: rest, max_eval, alpha, beta, t =>
      let old := b row col
      let b1 := setCell b row col (some ⟨shape, current⟩)
      match f b1 alpha beta t with
      | (eval_score, b2, t2) =>
        let b3 := setCell b2 row col old
        let max_eval' := XR.max max_eval eval_score
        let alpha' := XR.max alpha eval_score
        if XR.ble beta alpha' then (max_eval', b3, t2)
        else ab_max_loop f current b3 rest max_eval' alpha' beta t2

/-- The minimizing loop of `_minimax`. -/
def ab_min_loop (f : Board → XR → XR → Nat → XR × Board × Nat) (current : Player) :
    Board → List Move → XR → XR → XR → Nat → XR × Board × Nat
  | b, [], min_eval, _, _, t => (min_eval, b, t)
  | b, (row, col, shape) :: rest, min_eval, alpha, beta, t =>
      let old := b row col
      let b1 := setCell b row col (some ⟨shape, current⟩)
      match f b1 alpha beta t with
      | (eval_score, b2, t2) =>
        let b3 := setCell b2 row col old
        let min_eval' := XR.min min_eval eval_score
        let beta' := XR.min beta eval_score
        if XR.ble beta' alpha then (min_eval', b3, t2)
        else ab_min_loop f current b3 rest min_eval' alpha beta' t2

/-- `QuantikAI._minimax`: deadline check, terminal checks, then the alpha-beta
loop over the current player's valid moves. Returns (value, board, clock). -/
def minimax (tmo : Nat → Bool) (me : Player) (depth : Nat) (b : Board)
    (alpha beta : XR) (maximizing : Bool) (t : Nat) : XR × Board × Nat :=
  if tmo t then (XR.fin 0, b, t + 1)
  else
    let t1 := t + 1
    if check_victory b then
      if is_winner b me then (XR.fin (10000 - (10 - (depth : ℚ))), b, t1)
      else (XR.fin (-10000 + (10 - (depth : ℚ))), b, t1)
    else if h : depth = 0 then (XR.fin (evaluate_position b me), b, t1)
    else
      let current := if maximizing then me else me.other
      let valid_moves := generate_all_valid_moves b current
      if valid_moves = [] then (XR.fin 0, b, t1)
      else if maximizing then
        ab_max_loop (fun b' a' b'' t' => minimax tmo me (depth - 1) b' a' b'' false t')
          current b valid_moves XR.negInf alpha beta t1
      else
        ab_min_loop (fun b' a' b'' t' => minimax tmo me (depth - 1) b' a' b'' true t')
          current b valid_moves XR.posInf alpha beta t1
termination_by depth
decreasing_by all_goals exact Nat.sub_one_lt h

/-- The final minimax loop of `_minimax_root` (deadline-checked per move). -/
def root_main_loop (tmo : Nat → Bool) (me : Player) (depth : Nat) :
    Board → List Move → XR → Option Move → Nat → XR × Option Move × Board × Nat
  | b, [], best_score, best_move, t => (best_score, best_move, b, t)
  | b, (row, col, shape) :: rest, best_score, best_move, t =>
      if tmo t then (best_score, best_move, b, t + 1)
      else
        let t1 := t + 1
        let old := b row col
        let b1 := setCell b row col (some ⟨shape, me⟩)
        match minimax tmo me (depth - 1) b1 XR.negInf XR.posInf false t1 with
        | (score, b2, t2) =>
          let b3 := setCell b2 row col old
          if XR.blt best_score score then
            root_main_loop tmo me depth b3 rest score (some (row, col, shape)) t2
          else root_main_loop tmo me depth b3 rest best_score best_move t2

/-- The "PRIORITÉ HAUTE" block of `_minimax_root` (immediate opponent
threats): single-threat safe block, or multi-threat optimal block, or
most-dominant-threat block; `none` when it falls through to the next phase.
Returns the optional `(score, move)` result and the (restored) board. -/
def root_phase2 (me : Player) (b : Board) (valid_moves : List Move) :
    Option (XR × Option Move) × Board :=
  let opponent_threats := find_immediate_threats b me.other
  if opponent_threats ≠ [] then
    if opponent_threats.length = 1 then
      match safe_block_loop me opponent_threats b valid_moves with
      | (some m, b2) => (some (XR.fin 15000, some m), b2)
      | (none, b2) => (none, b2)
    else
      match find_best_blocking_move me opponent_threats b valid_moves with
      | (some m, b2) => (some (XR.fin 14000, some m), b2)
      | (none, b2) =>
        match find_most_dominant_threat b2 me opponent_threats with
        | some m => (some (XR.fin 13500, some m), b2)
        | none => (none, b2)
  else (none, b)

/-- The "PRIORITÉ MOYENNE" block of `_minimax_root` (opponent developing
threats): counter-attack above the 200 bar, safe defensive block above the
150 bar, otherwise fall through to minimax. -/
def root_phase3 (me : Player) (b : Board) (valid_moves : List Move) :
    Option (XR × Option Move) × Board :=
  let opponent_dev_threats := find_developing_threats b me.other
  if opponent_dev_threats ≠ [] then
    match dev_counter_loop me opponent_dev_threats b valid_moves XR.negInf none with
    | (best_counter_score, best_counter_move, b3) =>
      if XR.ble (XR.fin 200) best_counter_score then
        (some (XR.fin 13000, best_counter_move), b3)
      else if best_counter_move.isSome && XR.ble (XR.fin 150) best_counter_score then
        (some (XR.fin 11000, best_counter_move), b3)
      else (none, b3)
  else (none, b)

/-- `QuantikAI._minimax_root`: the ordered tactical phases (immediate win,
single-threat safe block, multi-threat optimal block, developing-threat
counter) and then the minimax evaluation of the sorted moves, with the
first-valid-move fallback. Returns (value, move, board, clock). -/
def minimax_root (tmo : Nat → Bool) (me : Player) (b : Board) (depth : Nat) (t : Nat) :
    XR × Option Move × Board × Nat :=
  let valid_moves := generate_all_valid_moves b me
  if valid_moves = [] then (XR.fin 0, none, b, t)
  else
    match win_check_loop me b valid_moves with
    | (some m, b1) => (XR.fin 20000, some m, b1, t)
    | (none, b1) =>
      match root_phase2 me b1 valid_moves with
      | (some (s, m), b2) => (s, m, b2, t)
      | (none, b2) =>
        match root_phase3 me b2 valid_moves with
        | (some (s, m), b3) => (s, m, b3, t)
        | (none, b3) =>
          let sorted_moves := sort_moves_by_priority b3 me valid_moves
          match root_main_loop tmo me depth b3 sorted_moves XR.negInf none t with
          | (best_score, best_move, b4, t4) =>
            if best_move = none then (best_score, valid_moves.head?, b4, t4)
            else (best_score, best_move, b4, t4)

/-- `QuantikAI.get_move`: the decision entry point. `pieces_count` is received
(as in Python) and, notably, never consulted. `fault = true` selects the
`except` branch (emergency selection); the normal path validates the move set,
runs `_minimax_root`, and falls back to the emergency selection when no move
came back. -/
def get_move (tmo : Nat → Bool) (fault : Bool) (me : Player) (board : Board)
    (_pieces_count : Player → Shape → Int) : Option Move :=
  let valid_moves := generate_all_valid_moves board me
  if valid_moves = [] then none
  else if fault then emergency_move_selection valid_moves
  else
    let depth := calculate_optimal_depth (pieces_played board)
    match minimax_root tmo me board depth 0 with
    | (_, none, _, _) => emergency_move_selection valid_moves
    | (_, some m, _, _) => some m

/-! ### Specification-side predicates (used only in theorem statements) -/

/-- The spec's description of an illegal placement: the target cell is
occupied, or some cell of the same row, same column, or same 2×2 zone holds a
piece of the same shape owned by the other player. -/
def RuleViolation (b : Board) (row col : Fin 4) (piece : Piece) : Prop :=
  (∃ p, b row col = some p) ∨
    ∃ r c, (r = row ∨ c = col ∨ (r, c) ∈ ZONES (zone_index row col)) ∧
      ∃ p, b r c = some p ∧ p.shape = piece.shape ∧ p.player ≠ piece.player

/-- The occupied cells' pieces of a line. -/
def occupiedPieces (b : Board) (line : List (Fin 4 × Fin 4)) : List Piece :=
  (cellPieces b line).filterMap id

/-- The empty cells of a line, in line order. -/
def emptyCellsOf (b : Board) (line : List (Fin 4 × Fin 4)) : List (Fin 4 × Fin 4) :=
  line.filter fun rc => (b rc.1 rc.2).isNone

/-- The spec's winning line: all 4 cells occupied, by pieces of pairwise
distinct shapes (ownership plays no role). -/
def WinningLine (b : Board) (line : List (Fin 4 × Fin 4)) : Prop :=
  (∀ rc ∈ line, (b rc.1 rc.2).isSome = true) ∧
    ((occupiedPieces b line).map Piece.shape).Nodup

/-- The spec's immediate threat for a player: exactly 3 occupied cells bearing
pairwise-distinct shapes, exactly 1 empty cell, at least one occupied cell
owned by the player. -/
def ImmediateThreatLine (b : Board) (player : Player) (line : List (Fin 4 × Fin 4)) :
    Prop :=
  (occupiedPieces b line).length = 3 ∧ (emptyCellsOf b line).length = 1 ∧
    ((occupiedPieces b line).map Piece.shape).Nodup ∧
    ∃ p ∈ occupiedPieces b line, p.player = player

/-- The spec's developing threat: exactly 2 occupied cells with distinct
shapes, 2 empty cells, at least one occupied cell owned by the player. -/
def DevelopingThreatLine (b : Board) (player : Player) (line : List (Fin 4 × Fin 4)) :
    Prop :=
  (occupiedPieces b line).length = 2 ∧ (emptyCellsOf b line).length = 2 ∧
    ((occupiedPieces b line).map Piece.shape).Nodup ∧
    ∃ p ∈ occupiedPieces b line, p.player = player

instance (b : Board) (player : Player) (line : List (Fin 4 × Fin 4)) :
    Decidable (ImmediateThreatLine b player line) := by
  unfold ImmediateThreatLine
  infer_instance

instance (b : Board) (player : Player) (line : List (Fin 4 × Fin 4)) :
    Decidable (DevelopingThreatLine b player line) := by
  unfold DevelopingThreatLine
  infer_instance

/-- The board after playing a move (for stating simulation results). -/
def playMove (b : Board) (me : Player) (m : Move) : Board :=
  setCell b m.1 m.2.1 (some ⟨m.2.2, me⟩)

/-! ### Concrete positions for witnesses and counterexamples -/

/-- A deadline oracle that never expires. -/
def tmoF : Nat → Bool := fun _ => false

/-- An inventory snapshot with no piece left at all. -/
def invZero : Player → Shape → Int := fun _ _ => 0

/-- Player 1 can win at (0,3) with a diamond: row 0 holds circle (P1),
square (P1), triangle (P2). -/
def winInOneBoard : Board := fun r c =>
  if r = 0 ∧ c = 0 then some ⟨.circle, .player1⟩
  else if r = 0 ∧ c = 1 then some ⟨.square, .player1⟩
  else if r = 0 ∧ c = 2 then some ⟨.triangle, .player2⟩
  else none

/-- A single piece of shape `x` owned by `p` at (0,0). -/
def singletonBoard (x : Shape) (p : Player) : Board := fun r c =>
  if r = 0 ∧ c = 0 then some ⟨x, p⟩ else none

/-- The 8 cells of row 0 ∪ column 0 ∪ the top-left zone. -/
def blockedCells : List (Fin 4 × Fin 4) :=
  [(0, 0), (0, 1), (0, 2), (0, 3), (1, 0), (2, 0), (3, 0), (1, 1)]

/-- Reachable position where player 1 has used up both circles (at (0,0) and
(2,2)) and player 2 both squares (at (1,3) and (3,3)). -/
def noCircleLeftBoard : Board := fun r c =>
  if r = 0 ∧ c = 0 then some ⟨.circle, .player1⟩
  else if r = 2 ∧ c = 2 then some ⟨.circle, .player1⟩
  else if r = 1 ∧ c = 3 then some ⟨.square, .player2⟩
  else if r = 3 ∧ c = 3 then some ⟨.square, .player2⟩
  else none

/-- The inventory matching `noCircleLeftBoard`: player 1 has no circle left,
player 2 no square left, 2 of everything else. -/
def noCircleLeftInventory : Player → Shape → Int := fun p s =>
  if p = .player1 ∧ s = .circle then 0
  else if p = .player2 ∧ s = .square then 0
  else 2

/-- Player 2 to move can win at (1,3) with a diamond (row 1 holds P2's circle,
square, triangle). -/
def winInOneBoard2 : Board := fun r c =>
  if r = 1 ∧ c = 0 then some ⟨.circle, .player2⟩
  else if r = 1 ∧ c = 1 then some ⟨.square, .player2⟩
  else if r = 1 ∧ c = 2 then some ⟨.triangle, .player2⟩
  else none

/-- Position for the safe-block scenario: row 0 holds circle (P1), square
(P1), triangle (P2) and P1 also holds a diamond at (3,3), so player 2 cannot
win at (0,3) (the diamond is blocked by the column) but can safely block the
single threat with a triangle at (0,3). -/
def blockBoard : Board := fun r c =>
  if r = 0 ∧ c = 0 then some ⟨.circle, .player1⟩
  else if r = 0 ∧ c = 1 then some ⟨.square, .player1⟩
  else if r = 0 ∧ c = 2 then some ⟨.triangle, .player2⟩
  else if r = 3 ∧ c = 3 then some ⟨.diamond, .player1⟩
  else none

/-- A completed row 2 with four distinct shapes owned alternately by both
players. -/
def mixedWinBoard : Board := fun r c =>
  if r = 2 ∧ c = 0 then some ⟨.circle, .player1⟩
  else if r = 2 ∧ c = 1 then some ⟨.square, .player2⟩
  else if r = 2 ∧ c = 2 then some ⟨.triangle, .player1⟩
  else if r = 2 ∧ c = 3 then some ⟨.diamond, .player2⟩
  else none

/-- The same shapes in the same cells, but all owned by player 1. -/
def mixedWinBoardOwn1 : Board := fun r c =>
  if r = 2 ∧ c = 0 then some ⟨.circle, .player1⟩
  else if r = 2 ∧ c = 1 then some ⟨.square, .player1⟩
  else if r = 2 ∧ c = 2 then some ⟨.triangle, .player1⟩
  else if r = 2 ∧ c = 3 then some ⟨.diamond, .player1⟩
  else none

/-- A board with a single player-2 circle at (0,0), for exercising `applyMove`. -/
def applyBoard : Board := singletonBoard .circle .player2

/-- The `GameState` for the `applyMove` scenario. -/
def applyState : GameState := ⟨applyBoard, initialInventory⟩

/-! ### Helper lemmas: cell writes and loop characterizations -/

theorem setCell_cancel (b : Board) (r c : Fin 4) (v : Option Piece) :
    setCell (setCell b r c v) r c (b r c) = b := by
  funext r' c'
  simp only [setCell]
  by_cases h : r' = r ∧ c' = c
  · obtain ⟨h1, h2⟩ := h
    subst h1; subst h2
    simp
  · simp [h]

theorem win_check_loop_eq (me : Player) (b : Board) (ms : List Move) :
    win_check_loop me b ms =
      ((ms.find? fun m => check_victory (playMove b me m)), b) := by
  induction ms generalizing b with
  | nil => rfl
  | cons m rest ih =>
      obtain ⟨row, col, shape⟩ := m
      simp only [win_check_loop, setCell_cancel]
      by_cases h : check_victory (playMove b me (row, col, shape)) = true
      · rw [List.find?_cons_of_pos rest h]
        simp only [playMove] at h
        simp [h]
      · rw [List.find?_cons_of_neg rest (by simpa using h)]
        simp only [playMove] at h
        simp only [h, if_false, Bool.false_eq_true]
        exact ih b

theorem safe_block_loop_eq (me : Player) (thr : List (List (Fin 4 × Fin 4)))
    (b : Board) (ms : List Move) :
    safe_block_loop me thr b ms =
      ((ms.find? fun m =>
        (thr.any fun tp => decide ((m.1, m.2.1) ∈ tp)) &&
          decide ((find_immediate_threats (playMove b me m) me.other).length = 0)), b) := by
  induction ms generalizing b with
  | nil => rfl
  | cons m rest ih =>
      obtain ⟨row, col, shape⟩ := m
      simp only [safe_block_loop, setCell_cancel]
      by_cases hb : (thr.any fun tp => decide ((row, col) ∈ tp)) = true
      · simp only [hb, if_true]
        by_cases hz :
            (find_immediate_threats (playMove b me (row, col, shape)) me.other).length = 0
        · simp only [playMove] at hz
          rw [List.find?_cons_of_pos rest (by simp [playMove, hb, hz])]
          simp [hz]
        · simp only [playMove] at hz
          rw [List.find?_cons_of_neg rest (by simp [playMove, hb, hz])]
          simp only [hz, if_false]
          exact ih b
      · simp only [hb, if_false]
        rw [List.find?_cons_of_neg rest (by simp [hb])]
        exact ih b

theorem best_blocking_loop_board (me : Player) (thr : List (List (Fin 4 × Fin 4))) :
    ∀ (ms : List Move) (b : Board) (s : XR) (mv : Option Move),
      (best_blocking_loop me thr b ms s mv).2 = b := by
  intro ms
  induction ms with
  | nil => intro b s mv; rfl
  | cons m rest ih =>
      intro b s mv
      obtain ⟨row, col, shape⟩ := m
      simp only [best_blocking_loop, setCell_cancel]
      by_cases hb : (thr.any fun tp => decide ((row, col) ∈ tp)) = true
      · simp only [hb, if_true]
        split
        · exact ih b _ _
        · exact ih b _ _
      · simp only [hb, if_false]
        exact ih b _ _

theorem best_blocking_loop_mem (me : Player) (thr : List (List (Fin 4 × Fin 4))) :
    ∀ (ms : List Move) (b : Board) (s : XR) (mv : Option Move) (x : Move),
      (best_blocking_loop me thr b ms s mv).1 = some x → x ∈ ms ∨ mv = some x := by
  intro ms
  induction ms with
  | nil => intro b s mv x h; exact Or.inr h
  | cons m rest ih =>
      intro b s mv x h
      obtain ⟨row, col, shape⟩ := m
      simp only [best_blocking_loop, setCell_cancel] at h
      split at h
      · split at h
        · rcases ih b _ _ x h with h2 | h2
          · exact Or.inl (List.mem_cons_of_mem _ h2)
          · injection h2 with h3
            exact Or.inl (h3 ▸ List.mem_cons_self _ _)
        · rcases ih b _ _ x h with h2 | h2
          · exact Or.inl (List.mem_cons_of_mem _ h2)
          · exact Or.inr h2
      · rcases ih b _ _ x h with h2 | h2
        · exact Or.inl (List.mem_cons_of_mem _ h2)
        · exact Or.inr h2

theorem most_dominant_loop_mem (b : Board) (me : Player)
    (thr : List (List (Fin 4 × Fin 4))) :
    ∀ (ms : List Move) (d : Int) (mv : Option Move) (x : Move),
      most_dominant_loop b me thr ms d mv = some x → x ∈ ms ∨ mv = some x := by
  intro ms
  induction ms with
  | nil => intro d mv x h; exact Or.inr h
  | cons m rest ih =>
      intro d mv x h
      obtain ⟨row, col, shape⟩ := m
      simp only [most_dominant_loop] at h
      split at h
      · split at h
        · rcases ih _ _ x h with h2 | h2
          · exact Or.inl (List.mem_cons_of_mem _ h2)
          · injection h2 with h3
            exact Or.inl (h3 ▸ List.mem_cons_self _ _)
        · rcases ih _ _ x h with h2 | h2
          · exact Or.inl (List.mem_cons_of_mem _ h2)
          · exact Or.inr h2
      · rcases ih _ _ x h with h2 | h2
        · exact Or.inl (List.mem_cons_of_mem _ h2)
        · exact Or.inr h2

theorem dev_counter_loop_board (me : Player) (dev : List (List (Fin 4 × Fin 4))) :
    ∀ (ms : List Move) (b : Board) (s : XR) (mv : Option Move),
      (dev_counter_loop me dev b ms s mv).2.2 = b := by
  intro ms
  induction ms with
  | nil => intro b s mv; rfl
  | cons m rest ih =>
      intro b s mv
      obtain ⟨row, col, shape⟩ := m
      simp only [dev_counter_loop, setCell_cancel]
      split
      · exact ih b _ _
      · split <;> split <;> exact ih b _ _

theorem dev_counter_loop_mem (me : Player) (dev : List (List (Fin 4 × Fin 4))) :
    ∀ (ms : List Move) (b : Board) (s : XR) (mv : Option Move) (x : Move),
      (dev_counter_loop me dev b ms s mv).2.1 = some x → x ∈ ms ∨ mv = some x := by
  intro ms
  induction ms with
  | nil => intro b s mv x h; exact Or.inr h
  | cons m rest ih =>
      intro b s mv x h
      obtain ⟨row, col, shape⟩ := m
      simp only [dev_counter_loop, setCell_cancel] at h
      split at h
      · rcases ih b _ _ x h with h2 | h2
        · exact Or.inl (List.mem_cons_of_mem _ h2)
        · exact Or.inr h2
      · split at h <;> split at h <;>
          rcases ih b _ _ x h with h2 | h2 <;>
          first
            | exact Or.inl (List.mem_cons_of_mem _ h2)
            | (injection h2 with h3
               exact Or.inl (h3 ▸ List.mem_cons_self _ _))
            | exact Or.inr h2

theorem ab_max_loop_board (f : Board → XR → XR → Nat → XR × Board × Nat)
    (current : Player) (hf : ∀ b a c t, (f b a c t).2.1 = b) :
    ∀ (ms : List Move) (b : Board) (mx a c : XR) (t : Nat),
      (ab_max_loop f current b ms mx a c t).2.1 = b := by
  intro ms
  induction ms with
  | nil => intro b mx a c t; rfl
  | cons m rest ih =>
      intro b mx a c t
      obtain ⟨row, col, shape⟩ := m
      simp only [ab_max_loop]
      rcases hfb : f (setCell b row col (some ⟨shape, current⟩)) a c t with ⟨ev, b2, t2⟩
      have hb2 : b2 = setCell b row col (some ⟨shape, current⟩) := by
        have := hf (setCell b row col (some ⟨shape, current⟩)) a c t
        rw [hfb] at this
        exact this
      rw [hb2, setCell_cancel]
      split
      · rfl
      · exact ih b _ _ _ _

theorem ab_min_loop_board (f : Board → XR → XR → Nat → XR × Board × Nat)
    (current : Player) (hf : ∀ b a c t, (f b a c t).2.1 = b) :
    ∀ (ms : List Move) (b : Board) (mn a c : XR) (t : Nat),
      (ab_min_loop f current b ms mn a c t).2.1 = b := by
  intro ms
  induction ms with
  | nil => intro b mn a c t; rfl
  | cons m rest ih =>
      intro b mn a c t
      obtain ⟨row, col, shape⟩ := m
      simp only [ab_min_loop]
      rcases hfb : f (setCell b row col (some ⟨shape, current⟩)) a c t with ⟨ev, b2, t2⟩
      have hb2 : b2 = setCell b row col (some ⟨shape, current⟩) := by
        have := hf (setCell b row col (some ⟨shape, current⟩)) a c t
        rw [hfb] at this
        exact this
      rw [hb2, setCell_cancel]
      split
      · rfl
      · exact ih b _ _ _ _

theorem minimax_board (tmo : Nat → Bool) (me : Player) :
    ∀ (depth : Nat) (b : Board) (alpha beta : XR) (maximizing : Bool) (t : Nat),
      (minimax tmo me depth b alpha beta maximizing t).2.1 = b := by
  intro depth
  induction depth with
  | zero =>
      intro b alpha beta maximizing t
      rw [minimax]
      split
      · rfl
      · split
        · split <;> rfl
        · split
          · rfl
          · omega
  | succ n ih =>
      intro b alpha beta maximizing t
      rw [minimax]
      split
      · rfl
      · split
        · split <;> rfl
        · split
          · rfl
          · split
            · dsimp only
              split
              · rfl
              · exact ab_max_loop_board _ _ (fun b' a' c' t' => ih b' a' c' false t')
                  _ _ _ _ _ _
            · dsimp only
              split
              · rfl
              · exact ab_min_loop_board _ _ (fun b' a' c' t' => ih b' a' c' true t')
                  _ _ _ _ _ _

theorem root_main_loop_board (tmo : Nat → Bool) (me : Player) (depth : Nat) :
    ∀ (ms : List Move) (b : Board) (s : XR) (mv : Option Move) (t : Nat),
      (root_main_loop tmo me depth b ms s mv t).2.2.1 = b := by
  intro ms
  induction ms with
  | nil => intro b s mv t; rfl
  | cons m rest ih =>
      intro b s mv t
      obtain ⟨row, col, shape⟩ := m
      simp only [root_main_loop]
      split
      · rfl
      · rcases hmm : minimax tmo me (depth - 1)
            (setCell b row col (some ⟨shape, me⟩)) XR.negInf XR.posInf false (t + 1)
          with ⟨score, b2, t2⟩
        have hb2 : b2 = setCell b row col (some ⟨shape, me⟩) := by
          have := minimax_board tmo me (depth - 1)
            (setCell b row col (some ⟨shape, me⟩)) XR.negInf XR.posInf false (t + 1)
          rw [hmm] at this
          exact this
        rw [hb2, setCell_cancel]
        split
        · exact ih b _ _ _
        · exact ih b _ _ _

theorem root_main_loop_mem (tmo : Nat → Bool) (me : Player) (depth : Nat) :
    ∀ (ms : List Move) (b : Board) (s : XR) (mv : Option Move) (t : Nat) (x : Move),
      (root_main_loop tmo me depth b ms s mv t).2.1 = some x → x ∈ ms ∨ mv = some x := by
  intro ms
  induction ms with
  | nil => intro b s mv t x h; exact Or.inr h
  | cons m rest ih =>
      intro b s mv t x h
      obtain ⟨row, col, shape⟩ := m
      simp only [root_main_loop] at h
      split at h
      · exact Or.inr h
      · rcases hmm : minimax tmo me (depth - 1)
            (setCell b row col (some ⟨shape, me⟩)) XR.negInf XR.posInf false (t + 1)
          with ⟨score, b2, t2⟩
        rw [hmm] at h
        split at h
        · rcases ih _ _ _ _ x h with h2 | h2
          · exact Or.inl (List.mem_cons_of_mem _ h2)
          · injection h2 with h3
            exact Or.inl (h3 ▸ List.mem_cons_self _ _)
        · rcases ih _ _ _ _ x h with h2 | h2
          · exact Or.inl (List.mem_cons_of_mem _ h2)
          · exact Or.inr h2

theorem emergency_mem (ms : List Move) (x : Move)
    (h : emergency_move_selection ms = some x) : x ∈ ms := by
  simp only [emergency_move_selection] at h
  split at h
  · exact absurd h (by simp)
  · split at h
    · rename_i m rest hfil
      injection h with h1
      have hm : m ∈ ms := (List.mem_filter.mp (hfil.symm ▸ List.mem_cons_self m rest)).1
      exact h1 ▸ hm
    · exact List.mem_of_mem_head? (by simp [h])

theorem emergency_isSome (ms : List Move) (h : ms ≠ []) :
    (emergency_move_selection ms).isSome = true := by
  simp only [emergency_move_selection]
  split
  · exact absurd (by assumption) h
  · split
    · rfl
    · rcases ms with _ | ⟨m, rest⟩
      · exact absurd rfl h
      · rfl

theorem mem_sort_moves (b : Board) (me : Player) (ms : List Move) (m : Move) :
    m ∈ sort_moves_by_priority b me ms ↔ m ∈ ms := by
  simp only [sort_moves_by_priority]
  exact List.mem_mergeSort

theorem find_most_dominant_mem (b : Board) (me : Player)
    (thr : List (List (Fin 4 × Fin 4))) (x : Move)
    (h : find_most_dominant_threat b me thr = some x) :
    x ∈ generate_all_valid_moves b me := by
  rcases most_dominant_loop_mem b me thr (generate_all_valid_moves b me) (-1) none x h
    with h2 | h2
  · exact h2
  · exact absurd h2 (by simp)

theorem find_best_blocking_mem (me : Player) (thr : List (List (Fin 4 × Fin 4)))
    (b : Board) (ms : List Move) (x : Move)
    (h : (find_best_blocking_move me thr b ms).1 = some x) : x ∈ ms := by
  rcases best_blocking_loop_mem me thr ms b XR.negInf none x h with h2 | h2
  · exact h2
  · exact absurd h2 (by simp)

theorem find_best_blocking_board (me : Player) (thr : List (List (Fin 4 × Fin 4)))
    (b : Board) (ms : List Move) : (find_best_blocking_move me thr b ms).2 = b :=
  best_blocking_loop_board me thr ms b XR.negInf none

theorem root_phase2_board (me : Player) (b : Board) (ms : List Move) :
    (root_phase2 me b ms).2 = b := by
  simp only [root_phase2]
  split
  · split
    · rw [safe_block_loop_eq]
      rcases hs : ms.find? _ with _ | m <;> simp only [hs]
    · rcases hbb : find_best_blocking_move me (find_immediate_threats b me.other) b ms
        with ⟨mv2, b2⟩
      have hb2 : b2 = b := by
        have h0 := find_best_blocking_board me (find_immediate_threats b me.other) b ms
        rw [hbb] at h0
        exact h0
      rcases mv2 with _ | m2
      · rcases hmd : find_most_dominant_threat b2 me (find_immediate_threats b me.other)
          with _ | m3 <;> simp only [hmd] <;> exact hb2
      · exact hb2
  · rfl

theorem root_phase2_mem (me : Player) (b : Board) (ms : List Move) (s : XR)
    (mv : Option Move) (x : Move) (h : (root_phase2 me b ms).1 = some (s, mv))
    (hmv : mv = some x) : x ∈ ms ∨ x ∈ generate_all_valid_moves b me := by
  simp only [root_phase2] at h
  split at h
  · split at h
    · rw [safe_block_loop_eq] at h
      rcases hs : ms.find? (fun m =>
          ((find_immediate_threats b me.other).any fun tp =>
            decide ((m.1, m.2.1) ∈ tp)) &&
          decide ((find_immediate_threats (playMove b me m) me.other).length = 0))
          with _ | m
      · rw [hs] at h
        exact absurd h (by simp)
      · rw [hs] at h
        simp only [Option.some.injEq, Prod.mk.injEq] at h
        have hx : m = x := by
          have h2 := h.2.trans hmv
          injection h2
        exact Or.inl (hx ▸ List.mem_of_find?_eq_some hs)
    · rcases hbb : find_best_blocking_move me (find_immediate_threats b me.other) b ms
        with ⟨mv2, b2⟩
      have hb2 : b2 = b := by
        have h0 := find_best_blocking_board me (find_immediate_threats b me.other) b ms
        rw [hbb] at h0
        exact h0
      rw [hbb] at h
      rcases mv2 with _ | m2
      · dsimp only at h
        rcases hmd : find_most_dominant_threat b2 me (find_immediate_threats b me.other)
          with _ | m3
        · rw [hmd] at h
          exact absurd h (by simp)
        · rw [hmd] at h
          simp only [Option.some.injEq, Prod.mk.injEq] at h
          have hx : m3 = x := by
            have h2 := h.2.trans hmv
            injection h2
          exact Or.inr (hb2 ▸ hx ▸ find_most_dominant_mem b2 me _ m3 hmd)
      · dsimp only at h
        simp only [Option.some.injEq, Prod.mk.injEq] at h
        have hx : m2 = x := by
          have h2 := h.2.trans hmv
          injection h2
        have hm2 : (find_best_blocking_move me (find_immediate_threats b me.other) b
            ms).1 = some m2 := by rw [hbb]
        exact Or.inl (hx ▸ find_best_blocking_mem me _ b ms m2 hm2)
  · exact absurd h (by simp)

theorem root_phase3_board (me : Player) (b : Board) (ms : List Move) :
    (root_phase3 me b ms).2 = b := by
  simp only [root_phase3]
  split
  · rcases hd : dev_counter_loop me (find_developing_threats b me.other) b ms
        XR.negInf none with ⟨s3, mv3, b3⟩
    have hb3 : b3 = b := by
      have := dev_counter_loop_board me (find_developing_threats b me.other) ms b
        XR.negInf none
      rw [hd] at this
      exact this
    split
    · exact hb3
    · split
      · exact hb3
      · exact hb3
  · rfl

theorem root_phase3_mem (me : Player) (b : Board) (ms : List Move) (s : XR)
    (mv : Option Move) (x : Move) (h : (root_phase3 me b ms).1 = some (s, mv))
    (hmv : mv = some x) : x ∈ ms := by
  simp only [root_phase3] at h
  split at h
  · rcases hd : dev_counter_loop me (find_developing_threats b me.other) b ms
        XR.negInf none with ⟨s3, mv3, b3⟩
    rw [hd] at h
    have hmem : mv3 = some x → x ∈ ms := by
      intro h3
      rcases dev_counter_loop_mem me (find_developing_threats b me.other) ms b
          XR.negInf none x (by rw [hd]; exact h3) with h4 | h4
      · exact h4
      · exact absurd h4 (by simp)
    split at h
    · simp only [Option.some.injEq, Prod.mk.injEq] at h
      exact hmem (h.2.trans hmv)
    · split at h
      · simp only [Option.some.injEq, Prod.mk.injEq] at h
        exact hmem (h.2.trans hmv)
      · exact absurd h (by simp)
  · exact absurd h (by simp)

theorem minimax_root_board (tmo : Nat → Bool) (me : Player) (b : Board) (depth : Nat)
    (t : Nat) : (minimax_root tmo me b depth t).2.2.1 = b := by
  simp only [minimax_root]
  split
  · rfl
  · split
    · rename_i m b1 heq
      exact congrArg Prod.snd
        (heq.symm.trans (win_check_loop_eq me b (generate_all_valid_moves b me)))
    · rename_i b1 heq
      have hb1 : b1 = b := congrArg Prod.snd
        (heq.symm.trans (win_check_loop_eq me b (generate_all_valid_moves b me)))
      split
      · rename_i s2 m2 b2 heq2
        have hb2 : b2 = b1 := by
          have h0 := root_phase2_board me b1 (generate_all_valid_moves b me)
          rw [heq2] at h0
          exact h0
        exact hb2.trans hb1
      · rename_i b2 heq2
        have hb2 : b2 = b1 := by
          have h0 := root_phase2_board me b1 (generate_all_valid_moves b me)
          rw [heq2] at h0
          exact h0
        split
        · rename_i s3 m3 b3 heq3
          have hb3 : b3 = b2 := by
            have h0 := root_phase3_board me b2 (generate_all_valid_moves b me)
            rw [heq3] at h0
            exact h0
          exact hb3.trans (hb2.trans hb1)
        · rename_i b3 heq3
          have hb3 : b3 = b2 := by
            have h0 := root_phase3_board me b2 (generate_all_valid_moves b me)
            rw [heq3] at h0
            exact h0
          have h0 := root_main_loop_board tmo me depth
            (sort_moves_by_priority b3 me (generate_all_valid_moves b me)) b3
            XR.negInf none t
          split
          · exact h0.trans (hb3.trans (hb2.trans hb1))
          · exact h0.trans (hb3.trans (hb2.trans hb1))

theorem minimax_root_mem (tmo : Nat → Bool) (me : Player) (b : Board) (depth : Nat)
    (t : Nat) (x : Move) (h : (minimax_root tmo me b depth t).2.1 = some x) :
    x ∈ generate_all_valid_moves b me := by
  simp only [minimax_root] at h
  split at h
  · exact absurd h (by simp)
  · split at h
    · rename_i m b1 heq
      have hm : (generate_all_valid_moves b me).find?
          (fun m => check_victory (playMove b me m)) = some m := by
        have h0 := heq.symm.trans (win_check_loop_eq me b (generate_all_valid_moves b me))
        exact (congrArg Prod.fst h0).symm
      have hx : m = x := by
        simp only [] at h
        injection h
      exact hx ▸ List.mem_of_find?_eq_some hm
    · rename_i b1 heq
      have hb1 : b1 = b := congrArg Prod.snd
        (heq.symm.trans (win_check_loop_eq me b (generate_all_valid_moves b me)))
      split at h
      · rename_i s2 m2 b2 heq2
        have h2 := root_phase2_mem me b1 (generate_all_valid_moves b me) s2 m2 x
          (by rw [heq2]) (by simpa using h)
        rcases h2 with h2 | h2
        · exact h2
        · rw [hb1] at h2
          exact h2
      · rename_i b2 heq2
        have hb2 : b2 = b1 := by
          have h0 := root_phase2_board me b1 (generate_all_valid_moves b me)
          rw [heq2] at h0
          exact h0
        split at h
        · rename_i s3 m3 b3 heq3
          exact root_phase3_mem me b2 (generate_all_valid_moves b me) s3 m3 x
            (by rw [heq3]) (by simpa using h)
        · rename_i b3 heq3
          split at h
          · have h5 : (generate_all_valid_moves b me).head? = some x := by
              simpa using h
            exact List.mem_of_mem_head? (Option.mem_def.mpr h5)
          · have hmem := root_main_loop_mem tmo me depth
                (sort_moves_by_priority b3 me (generate_all_valid_moves b me)) b3
                XR.negInf none t x (by simpa using h)
            rcases hmem with h5 | h5
            · exact (mem_sort_moves b3 me (generate_all_valid_moves b me) x).mp h5
            · exact absurd h5 (by simp)


/-! ### Helper lemmas: legality and victory characterizations -/

theorem setCell_same (b : Board) (r c : Fin 4) (v : Option Piece) :
    setCell b r c v r c = v := by
  simp [setCell]

theorem setCell_ne (b : Board) (r c : Fin 4) (v : Option Piece) (r' c' : Fin 4)
    (h : ¬(r' = r ∧ c' = c)) : setCell b r c v r' c' = b r' c' := by
  simp [setCell, h]

theorem conflictAt_iff (b : Board) (piece : Piece) (r c : Fin 4) :
    conflictAt b piece r c = true ↔
      ∃ p, b r c = some p ∧ p.shape = piece.shape ∧ p.player ≠ piece.player := by
  unfold conflictAt
  cases h : b r c <;> simp [h]

theorem get_zone_positions_eq :
    ∀ row col : Fin 4, get_zone_positions row col = ZONES (zone_index row col) := by
  decide

theorem is_move_valid_eq (b : Board) (row col : Fin 4) (piece : Piece) :
    is_move_valid b row col piece = is_valid_move b row col piece := by
  simp only [is_move_valid, is_valid_move, get_zone_positions_eq]

theorem is_valid_move_false_iff (b : Board) (row col : Fin 4) (piece : Piece) :
    is_valid_move b row col piece = false ↔ RuleViolation b row col piece := by
  unfold is_valid_move RuleViolation
  by_cases hocc : (b row col).isSome = true
  · simp only [hocc, if_true]
    constructor
    · intro _
      exact Or.inl (Option.isSome_iff_exists.mp hocc)
    · intro _
      trivial
  · simp only [hocc, if_false]
    rw [show (∃ p, b row col = some p) ↔ False by
      simp only [iff_false]
      intro ⟨p, hp⟩
      exact hocc (by simp [hp])]
    simp only [false_or]
    constructor
    · intro h
      rcases Bool.and_eq_false_iff.mp h with h1 | h1
      · rcases Bool.and_eq_false_iff.mp h1 with h2 | h2
        · have : ∃ c', conflictAt b piece row c' = true := by
            rw [Bool.not_eq_false'] at h2
            simpa [List.any_eq_true, List.mem_finRange] using h2
          obtain ⟨c', hc'⟩ := this
          obtain ⟨p, hp, hs, hpl⟩ := (conflictAt_iff b piece row c').mp hc'
          exact ⟨row, c', Or.inl rfl, p, hp, hs, hpl⟩
        · have : ∃ r', conflictAt b piece r' col = true := by
            rw [Bool.not_eq_false'] at h2
            simpa [List.any_eq_true, List.mem_finRange] using h2
          obtain ⟨r', hr'⟩ := this
          obtain ⟨p, hp, hs, hpl⟩ := (conflictAt_iff b piece r' col).mp hr'
          exact ⟨r', col, Or.inr (Or.inl rfl), p, hp, hs, hpl⟩
      · have : ∃ rc ∈ ZONES (zone_index row col), conflictAt b piece rc.1 rc.2 = true := by
          rw [Bool.not_eq_false'] at h1
          simpa [List.any_eq_true] using h1
        obtain ⟨rc, hrc, hc⟩ := this
        obtain ⟨p, hp, hs, hpl⟩ := (conflictAt_iff b piece rc.1 rc.2).mp hc
        exact ⟨rc.1, rc.2, Or.inr (Or.inr (by simpa using hrc)), p, hp, hs, hpl⟩
    · rintro ⟨r, c, hpos, p, hp, hs, hpl⟩
      have hconf : conflictAt b piece r c = true :=
        (conflictAt_iff b piece r c).mpr ⟨p, hp, hs, hpl⟩
      rcases hpos with h1 | h1 | h1
      · subst h1
        apply Bool.and_eq_false_iff.mpr
        left
        apply Bool.and_eq_false_iff.mpr
        left
        rw [Bool.not_eq_false']
        exact List.any_eq_true.mpr ⟨c, List.mem_finRange c, hconf⟩
      · subst h1
        apply Bool.and_eq_false_iff.mpr
        left
        apply Bool.and_eq_false_iff.mpr
        right
        rw [Bool.not_eq_false']
        exact List.any_eq_true.mpr ⟨r, List.mem_finRange r, hconf⟩
      · apply Bool.and_eq_false_iff.mpr
        right
        rw [Bool.not_eq_false']
        exact List.any_eq_true.mpr ⟨(r, c), h1, hconf⟩

theorem length_filterMap_id_of_isSome {α : Type} :
    ∀ l : List (Option α), (∀ x ∈ l, x.isSome = true) →
      (l.filterMap id).length = l.length := by
  intro l
  induction l with
  | nil => intro _; rfl
  | cons a rest ih =>
      intro h
      rcases a with _ | v
      · exact absurd (h none (List.mem_cons_self _ _)) (by simp)
      · simp only [List.filterMap_cons, id_def, List.length_cons]
        rw [ih fun x hx => h x (List.mem_cons_of_mem _ hx)]

theorem dedup_length_eq_iff_nodup {α : Type} [DecidableEq α] (l : List α) :
    l.dedup.length = l.length ↔ l.Nodup := by
  constructor
  · intro h
    have hsub : l.dedup.Sublist l := List.dedup_sublist l
    have := hsub.eq_of_length_le (le_of_eq h.symm)
    exact this ▸ List.nodup_dedup l
  · intro h
    rw [List.dedup_eq_self.mpr h]

theorem all_diff_iff (b : Board) (line : List (Fin 4 × Fin 4))
    (hlen : line.length = 4) :
    all_diff (cellPieces b line) = true ↔ WinningLine b line := by
  unfold all_diff WinningLine
  by_cases hocc : (cellPieces b line).any (·.isNone) = true
  · simp only [hocc, if_true]
    constructor
    · intro h
      exact absurd h (by simp)
    · rintro ⟨hall, _⟩
      exfalso
      obtain ⟨x, hx, hxn⟩ := List.any_eq_true.mp hocc
      obtain ⟨rc, hrc, hrceq⟩ := List.mem_map.mp hx
      have := hall rc hrc
      rw [hrceq] at this
      simp [Option.isNone_iff_eq_none.mp hxn] at this
  · simp only [hocc, if_false]
    have hall : ∀ rc ∈ line, (b rc.1 rc.2).isSome = true := by
      intro rc hrc
      have := List.any_eq_false.mp (Bool.not_eq_true _ ▸ hocc)
      have h2 := this (b rc.1 rc.2) (List.mem_map.mpr ⟨rc, hrc, rfl⟩)
      simp [Option.isNone_iff_eq_none, ← Option.ne_none_iff_isSome] at h2
      simp [← Option.ne_none_iff_isSome, h2]
    have hlenp : (occupiedPieces b line).length = 4 := by
      unfold occupiedPieces
      rw [length_filterMap_id_of_isSome (cellPieces b line)
        (fun x hx => by
          obtain ⟨rc, hrc, hrceq⟩ := List.mem_map.mp hx
          exact hrceq ▸ hall rc hrc)]
      simpa [cellPieces] using hlen
    have hlens : ((occupiedPieces b line).map Piece.shape).length = 4 := by
      simpa using hlenp
    constructor
    · intro h
      refine ⟨hall, ?_⟩
      have h4 : ((occupiedPieces b line).map Piece.shape).dedup.length = 4 := by
        simpa [occupiedPieces] using h
      exact (dedup_length_eq_iff_nodup _).mp (h4.trans hlens.symm)
    · rintro ⟨_, hnd⟩
      have hd := (dedup_length_eq_iff_nodup ((occupiedPieces b line).map Piece.shape)).mpr hnd
      exact decide_eq_true (hd.trans hlens)

theorem lines_length : ∀ line ∈ all_lines, line.length = 4 := by decide

theorem check_victory_iff (b : Board) :
    check_victory b = true ↔ ∃ line ∈ all_lines, WinningLine b line := by
  unfold check_victory
  rw [List.any_eq_true]
  constructor
  · rintro ⟨line, hl, hd⟩
    exact ⟨line, hl, (all_diff_iff b line (lines_length line hl)).mp hd⟩
  · rintro ⟨line, hl, hw⟩
    exact ⟨line, hl, (all_diff_iff b line (lines_length line hl)).mpr hw⟩

theorem line_shape_data_eq (b b' : Board)
    (h : ∀ r c, (b r c).map Piece.shape = (b' r c).map Piece.shape) :
    ∀ line : List (Fin 4 × Fin 4),
      ((cellPieces b line).filterMap id).map Piece.shape =
        ((cellPieces b' line).filterMap id).map Piece.shape ∧
      (cellPieces b line).any (·.isNone) = (cellPieces b' line).any (·.isNone) := by
  intro line
  induction line with
  | nil => exact ⟨rfl, rfl⟩
  | cons rc rest ih =>
      have hcell := h rc.1 rc.2
      rcases hb : b rc.1 rc.2 with _ | p <;> rcases hb' : b' rc.1 rc.2 with _ | q
      · constructor
        · simpa [cellPieces, List.filterMap_cons, hb, hb'] using ih.1
        · simp [cellPieces, hb, hb', ih.2]
      · rw [hb, hb'] at hcell
        simp at hcell
      · rw [hb, hb'] at hcell
        simp at hcell
      · rw [hb, hb'] at hcell
        have hs : p.shape = q.shape := by simpa using hcell
        constructor
        · simpa [cellPieces, List.filterMap_cons, hb, hb', hs] using ih.1
        · simpa [cellPieces, hb, hb'] using ih.2

theorem check_victory_shape_invariant (b b' : Board)
    (h : ∀ r c, (b r c).map Piece.shape = (b' r c).map Piece.shape) :
    check_victory b = check_victory b' := by
  unfold check_victory
  have hfun : (fun line => all_diff (cellPieces b line)) =
      (fun line => all_diff (cellPieces b' line)) := by
    funext line
    unfold all_diff
    rw [(line_shape_data_eq b b' h line).2, (line_shape_data_eq b b' h line).1]
  rw [hfun]

theorem occupied_length_of_complete (b : Board) (line : List (Fin 4 × Fin 4))
    (n : Nat) (hlen : line.length = n)
    (hall : ∀ rc ∈ line, (b rc.1 rc.2).isSome = true) :
    (occupiedPieces b line).length = n := by
  unfold occupiedPieces
  rw [length_filterMap_id_of_isSome (cellPieces b line) (fun x hx => by
    obtain ⟨rc, hrc, hrceq⟩ := List.mem_map.mp hx
    exact hrceq ▸ hall rc hrc)]
  simpa [cellPieces] using hlen

theorem is_winner_iff (b : Board) (player : Player) :
    is_winner b player = true ↔
      ∃ line ∈ all_lines, WinningLine b line ∧
        ∃ p ∈ occupiedPieces b line, p.player = player := by
  unfold is_winner
  rw [List.any_eq_true]
  have key : ∀ line ∈ all_lines,
      (((cellPieces b line).all (·.isSome) &&
        decide ((((cellPieces b line).filterMap id).map Piece.shape).dedup.length = 4)) &&
        ((cellPieces b line).filterMap id).any (fun p => decide (p.player = player))) =
          true ↔
        WinningLine b line ∧ ∃ p ∈ occupiedPieces b line, p.player = player := by
    intro line hline
    have hlen := lines_length line hline
    simp only [Bool.and_eq_true, decide_eq_true_eq, List.all_eq_true, List.any_eq_true]
    constructor
    · rintro ⟨⟨hall, hded⟩, p, hp, hpl⟩
      have hall' : ∀ rc ∈ line, (b rc.1 rc.2).isSome = true := fun rc hrc =>
        hall _ (List.mem_map.mpr ⟨rc, hrc, rfl⟩)
      have hlens : ((occupiedPieces b line).map Piece.shape).length = 4 := by
        simpa using occupied_length_of_complete b line 4 hlen hall'
      exact ⟨⟨hall', (dedup_length_eq_iff_nodup _).mp (hded.trans hlens.symm)⟩,
        p, hp, hpl⟩
    · rintro ⟨⟨hall, hnd⟩, p, hp, hpl⟩
      have hlens : ((occupiedPieces b line).map Piece.shape).length = 4 := by
        simpa using occupied_length_of_complete b line 4 hlen hall
      refine ⟨⟨fun x hx => ?_, ((dedup_length_eq_iff_nodup _).mpr hnd).trans hlens⟩,
        p, hp, hpl⟩
      obtain ⟨rc, hrc, hrceq⟩ := List.mem_map.mp hx
      exact hrceq ▸ hall rc hrc
  constructor
  · rintro ⟨line, hl, hx⟩
    exact ⟨line, hl, (key line hl).mp hx⟩
  · rintro ⟨line, hl, hx⟩
    exact ⟨line, hl, (key line hl).mpr hx⟩

theorem immediate_pred_iff (b : Board) (player : Player) (line : List (Fin 4 × Fin 4)) :
    ((decide (((cellPieces b line).filterMap id).length = 3) &&
      decide ((line.filter fun rc => (b rc.1 rc.2).isNone).length = 1) &&
      decide ((((cellPieces b line).filterMap id).map Piece.shape).dedup.length = 3) &&
      ((cellPieces b line).filterMap id).any fun p => decide (p.player = player)) = true) ↔
      ImmediateThreatLine b player line := by
  simp only [Bool.and_eq_true, decide_eq_true_eq, List.any_eq_true]
  unfold ImmediateThreatLine occupiedPieces emptyCellsOf
  constructor
  · rintro ⟨⟨⟨h3, h1⟩, hd⟩, p, hp, hpl⟩
    have hlens : (((cellPieces b line).filterMap id).map Piece.shape).length = 3 := by
      simpa using h3
    exact ⟨h3, h1, (dedup_length_eq_iff_nodup _).mp (hd.trans hlens.symm), p, hp, hpl⟩
  · rintro ⟨h3, h1, hnd, p, hp, hpl⟩
    have hlens : (((cellPieces b line).filterMap id).map Piece.shape).length = 3 := by
      simpa using h3
    exact ⟨⟨⟨h3, h1⟩, ((dedup_length_eq_iff_nodup _).mpr hnd).trans hlens⟩, p, hp, hpl⟩

theorem developing_pred_iff (b : Board) (player : Player) (line : List (Fin 4 × Fin 4)) :
    ((decide (((cellPieces b line).filterMap id).length = 2) &&
      decide ((line.filter fun rc => (b rc.1 rc.2).isNone).length = 2) &&
      decide ((((cellPieces b line).filterMap id).map Piece.shape).dedup.length = 2) &&
      ((cellPieces b line).filterMap id).any fun p => decide (p.player = player)) = true) ↔
      DevelopingThreatLine b player line := by
  simp only [Bool.and_eq_true, decide_eq_true_eq, List.any_eq_true]
  unfold DevelopingThreatLine occupiedPieces emptyCellsOf
  constructor
  · rintro ⟨⟨⟨h3, h1⟩, hd⟩, p, hp, hpl⟩
    have hlens : (((cellPieces b line).filterMap id).map Piece.shape).length = 2 := by
      simpa using h3
    exact ⟨h3, h1, (dedup_length_eq_iff_nodup _).mp (hd.trans hlens.symm), p, hp, hpl⟩
  · rintro ⟨h3, h1, hnd, p, hp, hpl⟩
    have hlens : (((cellPieces b line).filterMap id).map Piece.shape).length = 2 := by
      simpa using h3
    exact ⟨⟨⟨h3, h1⟩, ((dedup_length_eq_iff_nodup _).mpr hnd).trans hlens⟩, p, hp, hpl⟩

theorem filterMap_ite {α β : Type} (p q : α → Bool) (g : α → β) :
    ∀ l : List α, (∀ a ∈ l, p a = q a) →
      (l.filterMap fun a => if p a then some (g a) else none) = (l.filter q).map g := by
  intro l
  induction l with
  | nil => intro _; rfl
  | cons a rest ih =>
      intro h
      have ha := h a (List.mem_cons_self _ _)
      have hrest := ih fun x hx => h x (List.mem_cons_of_mem _ hx)
      by_cases hp : p a = true
      · simp [List.filterMap_cons, List.filter_cons, hp, ← ha, hrest]
      · simp only [Bool.not_eq_true] at hp
        simp [List.filterMap_cons, List.filter_cons, hp, ← ha, hrest]

theorem filter_flatMap {α β : Type} (l : List α) (f : α → List β) (p : β → Bool) :
    (l.flatMap f).filter p = l.flatMap fun a => (f a).filter p := by
  induction l with
  | nil => rfl
  | cons a rest ih => simp [List.flatMap_cons, List.filter_append, ih]

theorem flatMap_congr {α β : Type} (l : List α) (f g : α → List β)
    (h : ∀ a ∈ l, f a = g a) : l.flatMap f = l.flatMap g := by
  induction l with
  | nil => rfl
  | cons a rest ih =>
      simp only [List.flatMap_cons, h a (List.mem_cons_self a rest)]
      rw [ih fun x hx => h x (List.mem_cons_of_mem _ hx)]

theorem is_move_valid_occupied (b : Board) (row col : Fin 4) (piece : Piece)
    (h : (b row col).isSome = true) : is_move_valid b row col piece = false := by
  unfold is_move_valid
  rw [if_pos h]

theorem mem_canonicalMoves (m : Move) : m ∈ canonicalMoves := by
  obtain ⟨r, c, s⟩ := m
  revert r c s
  decide

theorem gen_eq_filter (b : Board) (player : Player) :
    generate_all_valid_moves b player =
      canonicalMoves.filter fun m => is_move_valid b m.1 m.2.1 ⟨m.2.2, player⟩ := by
  unfold generate_all_valid_moves canonicalMoves
  rw [filter_flatMap]
  apply flatMap_congr
  intro row _
  rw [filter_flatMap]
  apply flatMap_congr
  intro col _
  rw [List.filter_map]
  by_cases hocc : (b row col).isSome = true
  · rw [if_pos hocc]
    have hnil : (Shape.all.filter
        ((fun m : Move => is_move_valid b m.1 m.2.1 ⟨m.2.2, player⟩) ∘
          fun s => (row, col, s))) = [] := by
      apply List.filter_eq_nil_iff.mpr
      intro s _
      simp [Function.comp, is_move_valid_occupied b row col _ hocc]
    rw [hnil]
    rfl
  · rw [if_neg hocc]
    rfl

theorem mem_gen_iff (b : Board) (player : Player) (m : Move) :
    m ∈ generate_all_valid_moves b player ↔
      is_move_valid b m.1 m.2.1 ⟨m.2.2, player⟩ = true := by
  rw [gen_eq_filter]
  rw [List.mem_filter]
  constructor
  · exact fun h => h.2
  · exact fun h => ⟨mem_canonicalMoves m, h⟩

theorem minimax_root_win (tmo : Nat → Bool) (me : Player) (b : Board) (depth t : Nat)
    (m : Move) (hne : generate_all_valid_moves b me ≠ [])
    (hm : (generate_all_valid_moves b me).find?
      (fun mm => check_victory (playMove b me mm)) = some m) :
    minimax_root tmo me b depth t = (XR.fin 20000, some m, b, t) := by
  simp only [minimax_root]
  rw [if_neg hne, win_check_loop_eq, hm]

theorem minimax_root_safe_block (tmo : Nat → Bool) (me : Player) (b : Board)
    (depth t : Nat) (m : Move) (hne : generate_all_valid_moves b me ≠ [])
    (hnowin : (generate_all_valid_moves b me).find?
      (fun mm => check_victory (playMove b me mm)) = none)
    (hone : (find_immediate_threats b me.other).length = 1)
    (hm : (generate_all_valid_moves b me).find? (fun mm =>
      ((find_immediate_threats b me.other).any fun tp =>
        decide ((mm.1, mm.2.1) ∈ tp)) &&
      decide ((find_immediate_threats (playMove b me mm) me.other).length = 0)) =
        some m) :
    minimax_root tmo me b depth t = (XR.fin 15000, some m, b, t) := by
  have hne2 : find_immediate_threats b me.other ≠ [] := by
    intro hh
    rw [hh] at hone
    simp at hone
  have hp2 : root_phase2 me b (generate_all_valid_moves b me) =
      (some (XR.fin 15000, some m), b) := by
    simp only [root_phase2]
    rw [if_pos hne2, if_pos hone, safe_block_loop_eq, hm]
  simp only [minimax_root]
  rw [if_neg hne, win_check_loop_eq, hnowin]
  dsimp only
  rw [hp2]

theorem get_move_eq_of_root (tmo : Nat → Bool) (me : Player) (b : Board)
    (inv : Player → Shape → Int) (s : XR) (m : Move) (b' : Board) (t' : Nat)
    (hne : generate_all_valid_moves b me ≠ [])
    (hroot : minimax_root tmo me b (calculate_optimal_depth (pieces_played b)) 0 =
      (s, some m, b', t')) :
    get_move tmo false me b inv = some m := by
  simp only [get_move]
  rw [if_neg hne, hroot]
  simp

/-! ### Claim theorems -/

/-- C2: for every board, cell and piece, the legality check returns false
precisely when the target cell is occupied or some cell of the same row,
column, or 2×2 zone holds a piece of the same shape owned by the other player
(so repeating one's own shape is always legal); the AI's re-implementation
`_is_move_valid` agrees with `QuantikBoard.is_valid_move` everywhere; and with
a single opposing piece of shape `x` at (0,0), a shape-`x` placement by the
other player is illegal on exactly the 8 cells of row 0 ∪ column 0 ∪ the
top-left zone, and legal on the remaining 8 cells. -/
theorem claim_C2 :
    (∀ (b : Board) (row col : Fin 4) (piece : Piece),
        (is_valid_move b row col piece = false ↔ RuleViolation b row col piece) ∧
          is_move_valid b row col piece = is_valid_move b row col piece) ∧
      ∀ (x : Shape) (p : Player) (r c : Fin 4),
        (is_valid_move (singletonBoard x p) r c ⟨x, p.other⟩ = false ↔
          (r, c) ∈ blockedCells) := by
  constructor
  · intro b row col piece
    exact ⟨is_valid_move_false_iff b row col piece, is_move_valid_eq b row col piece⟩
  · decide

/-- C4: the victory check returns true exactly when one of the 12 lines is
fully occupied by pieces of pairwise distinct shapes, and the result depends
only on which shapes occupy which cells, never on the owners. -/
theorem claim_C4 :
    (∀ b : Board, check_victory b = true ↔ ∃ line ∈ all_lines, WinningLine b line) ∧
      ∀ b b' : Board,
        (∀ r c, (b r c).map Piece.shape = (b' r c).map Piece.shape) →
        check_victory b = check_victory b' :=
  ⟨check_victory_iff, check_victory_shape_invariant⟩

/-- C4 witness: the completed mixed-ownership row and the same row owned
entirely by player 1 carry the same shapes, so the theorem makes the two
victory checks agree (both are true). -/
theorem claim_C4_witness :
    (∀ r c, (mixedWinBoard r c).map Piece.shape =
      (mixedWinBoardOwn1 r c).map Piece.shape) ∧
      check_victory mixedWinBoard = check_victory mixedWinBoardOwn1 ∧
      check_victory mixedWinBoard = true :=
  ⟨by decide, claim_C4.2 mixedWinBoard mixedWinBoardOwn1 (by decide), by decide⟩

/-- C7: the immediate-threat finder reports, in line order, one entry (the
line's empty cells) for exactly the lines with 3 occupied cells of pairwise
distinct shapes, 1 empty cell, and an occupied cell of the player; the
developing-threat finder does the same for 2 occupied cells of distinct
shapes and 2 empty cells. Lines with a duplicated shape satisfy neither
predicate, hence are never reported. -/
theorem claim_C7 :
    ∀ (b : Board) (player : Player),
      find_immediate_threats b player =
        (all_lines.filter fun line => decide (ImmediateThreatLine b player line)).map
          (emptyCellsOf b) ∧
      find_developing_threats b player =
        (all_lines.filter fun line => decide (DevelopingThreatLine b player line)).map
          (emptyCellsOf b) := by
  intro b player
  constructor
  · have hpq : ∀ line ∈ all_lines,
        (decide (((cellPieces b line).filterMap id).length = 3) &&
          decide ((line.filter fun rc => (b rc.1 rc.2).isNone).length = 1) &&
          decide ((((cellPieces b line).filterMap id).map Piece.shape).dedup.length = 3)
          && (((cellPieces b line).filterMap id).any fun p =>
            decide (p.player = player))) =
          decide (ImmediateThreatLine b player line) := by
      intro line _
      rw [Bool.eq_iff_iff, decide_eq_true_eq]
      exact immediate_pred_iff b player line
    unfold find_immediate_threats
    exact filterMap_ite _ _ (emptyCellsOf b) all_lines hpq
  · have hpq : ∀ line ∈ all_lines,
        (decide (((cellPieces b line).filterMap id).length = 2) &&
          decide ((line.filter fun rc => (b rc.1 rc.2).isNone).length = 2) &&
          decide ((((cellPieces b line).filterMap id).map Piece.shape).dedup.length = 2)
          && (((cellPieces b line).filterMap id).any fun p =>
            decide (p.player = player))) =
          decide (DevelopingThreatLine b player line) := by
      intro line _
      rw [Bool.eq_iff_iff, decide_eq_true_eq]
      exact developing_pred_iff b player line
    unfold find_developing_threats
    exact filterMap_ite _ _ (emptyCellsOf b) all_lines hpq

/-- C8: the recursive search (inner nodes and the root), for every board,
depth, alpha-beta window, and deadline oracle — hence including returns on
deadline expiry and alpha-beta cutoffs — hands back a board cell-for-cell
identical to the board at entry: every simulated placement is reverted. -/
theorem claim_C8 :
    (∀ (tmo : Nat → Bool) (me : Player) (depth : Nat) (b : Board) (alpha beta : XR)
        (maximizing : Bool) (t : Nat),
        (minimax tmo me depth b alpha beta maximizing t).2.1 = b) ∧
      ∀ (tmo : Nat → Bool) (me : Player) (b : Board) (depth t : Nat),
        (minimax_root tmo me b depth t).2.2.1 = b :=
  ⟨fun tmo me => minimax_board tmo me, fun tmo me => minimax_root_board tmo me⟩

/-- C10: `_is_winner` holds for a player exactly when some complete
4-distinct-shape line holds at least one of their pieces; consequently both
players "win" a mixed completed line simultaneously, and the terminal
evaluation of `_minimax` at such a position (deadline not expired) scores it
as a win for the searching AI, `10000 - (10 - depth)`, regardless of which
player completed the line. -/
theorem claim_C10 :
    (∀ (b : Board) (player : Player),
        is_winner b player = true ↔
          ∃ line ∈ all_lines, WinningLine b line ∧
            ∃ p ∈ occupiedPieces b line, p.player = player) ∧
      (∀ (b : Board) (line : List (Fin 4 × Fin 4)), line ∈ all_lines →
        WinningLine b line →
        (∃ p ∈ occupiedPieces b line, p.player = Player.player1) →
        (∃ p ∈ occupiedPieces b line, p.player = Player.player2) →
        is_winner b Player.player1 = true ∧ is_winner b Player.player2 = true) ∧
      ∀ (tmo : Nat → Bool) (me : Player) (depth : Nat) (b : Board) (alpha beta : XR)
        (maximizing : Bool) (t : Nat), tmo t = false → check_victory b = true →
        is_winner b me = true →
        (minimax tmo me depth b alpha beta maximizing t).1 =
          XR.fin (10000 - (10 - (depth : ℚ))) := by
  refine ⟨is_winner_iff, ?_, ?_⟩
  · intro b line hl hw h1 h2
    exact ⟨(is_winner_iff b _).mpr ⟨line, hl, hw, h1⟩,
      (is_winner_iff b _).mpr ⟨line, hl, hw, h2⟩⟩
  · intro tmo me depth b alpha beta maximizing t htmo hvic hwin
    rw [minimax]
    simp [htmo, hvic, hwin]

/-- C10 witness: on the board whose row 2 is completed with four distinct
shapes owned alternately by both players, the search at depth 3 (fresh clock,
unexpired deadline) returns the win score 10000 − (10 − 3). -/
theorem claim_C10_witness :
    (minimax tmoF Player.player1 3 mixedWinBoard XR.negInf XR.posInf true 0).1 =
      XR.fin (10000 - (10 - ((3 : Nat) : ℚ))) :=
  claim_C10.2.2 tmoF Player.player1 3 mixedWinBoard XR.negInf XR.posInf true 0
    rfl (by decide) (by decide)

/-- C9: if the move passes the legality check, the state-level apply places
the piece on the target cell, leaves every other cell unchanged, decrements
the mover's inventory count for that shape by one, leaves every other count
unchanged, and reports true; if the move is illegal it reports false and
returns the state unchanged. -/
theorem claim_C9 :
    ∀ (st : GameState) (row col : Fin 4) (shape : Shape) (player : Player),
      (is_valid_move st.board row col ⟨shape, player⟩ = true →
        (applyMove st row col shape player).1 = true ∧
        (applyMove st row col shape player).2.board row col = some ⟨shape, player⟩ ∧
        (∀ r c, ¬(r = row ∧ c = col) →
          (applyMove st row col shape player).2.board r c = st.board r c) ∧
        (applyMove st row col shape player).2.inventory player shape =
          st.inventory player shape - 1 ∧
        (∀ p s, ¬(p = player ∧ s = shape) →
          (applyMove st row col shape player).2.inventory p s = st.inventory p s)) ∧
      (is_valid_move st.board row col ⟨shape, player⟩ = false →
        (applyMove st row col shape player).1 = false ∧
        (applyMove st row col shape player).2 = st) := by
  intro st row col shape player
  constructor
  · intro hv
    have happ : applyMove st row col shape player =
        (true, ⟨setCell st.board row col (some ⟨shape, player⟩),
          fun p s => if p = player ∧ s = shape then st.inventory p s - 1
            else st.inventory p s⟩) := by
      unfold applyMove place_piece
      rw [if_pos hv]
    rw [happ]
    refine ⟨rfl, setCell_same _ _ _ _, ?_, ?_, ?_⟩
    · intro r c hrc
      exact setCell_ne _ _ _ _ r c hrc
    · simp
    · intro p s hps
      simp [hps]
  · intro hv
    have happ : applyMove st row col shape player = (false, st) := by
      unfold applyMove place_piece
      rw [if_neg (by simp [hv])]
    rw [happ]
    exact ⟨rfl, rfl⟩

/-- C9 witness: on the board with a lone player-2 circle at (0,0) and full
inventories, the legal placement of a player-1 circle at (2,2) mutates
exactly the target cell and the (player 1, circle) count, and the illegal
placement at (0,1) (same row as the opposing circle) changes nothing. -/
theorem claim_C9_witness :
    (applyMove applyState 2 2 Shape.circle Player.player1).1 = true ∧
      (applyMove applyState 2 2 Shape.circle Player.player1).2.board 2 2 =
        some ⟨Shape.circle, Player.player1⟩ ∧
      (applyMove applyState 2 2 Shape.circle Player.player1).2.board 0 0 =
        applyState.board 0 0 ∧
      (applyMove applyState 2 2 Shape.circle Player.player1).2.inventory
          Player.player1 Shape.circle =
        applyState.inventory Player.player1 Shape.circle - 1 ∧
      (applyMove applyState 2 2 Shape.circle Player.player1).2.inventory
          Player.player2 Shape.circle =
        applyState.inventory Player.player2 Shape.circle ∧
      (applyMove applyState 0 1 Shape.circle Player.player1).1 = false ∧
      (applyMove applyState 0 1 Shape.circle Player.player1).2 = applyState := by
  have h1 := (claim_C9 applyState 2 2 Shape.circle Player.player1).1 (by decide)
  have h2 := (claim_C9 applyState 0 1 Shape.circle Player.player1).2 (by decide)
  exact ⟨h1.1, h1.2.1, h1.2.2.1 0 0 (by decide), h1.2.2.2.1,
    h1.2.2.2.2 Player.player2 Shape.circle (by decide), h2.1, h2.2⟩

/-- C3 (amended): `_generate_all_valid_moves` returns exactly the triples
accepted by the legality check — the inventory is not consulted — in
deterministic row-major cell order with the declared shape order within each
cell (that is, it is the canonical ordered enumeration filtered by the
legality check). -/
theorem claim_C3_amended :
    ∀ (b : Board) (player : Player),
      generate_all_valid_moves b player =
        canonicalMoves.filter
          (fun m => is_move_valid b m.1 m.2.1 ⟨m.2.2, player⟩) ∧
      ∀ m : Move, m ∈ generate_all_valid_moves b player ↔
        is_move_valid b m.1 m.2.1 ⟨m.2.2, player⟩ = true :=
  fun b player => ⟨gen_eq_filter b player, mem_gen_iff b player⟩

/-- C3 counterexample: in the reachable position where player 1 has already
placed both circles, the enumeration still returns a circle move although the
inventory for (player 1, circle) is 0, so it is not the inventory-filtered
`legalMoves` of the spec. -/
theorem claim_C3_counterexample :
    ((0, 1, Shape.circle) : Move) ∈
        generate_all_valid_moves noCircleLeftBoard Player.player1 ∧
      noCircleLeftInventory Player.player1 Shape.circle = 0 ∧
      ((0, 1, Shape.circle) : Move) ∉
        legalMovesSpec noCircleLeftBoard noCircleLeftInventory Player.player1 :=
  ⟨by decide, by decide, by decide⟩

/-- C5: whenever some legal move wins immediately (its simulation makes the
victory check true), `get_move` (no internal fault) returns such a move —
the absolute-priority win loop fires before any threat blocking or search. -/
theorem claim_C5 :
    ∀ (tmo : Nat → Bool) (me : Player) (b : Board) (inv : Player → Shape → Int),
      (∃ m ∈ generate_all_valid_moves b me, check_victory (playMove b me m) = true) →
      ∃ m, get_move tmo false me b inv = some m ∧
        m ∈ generate_all_valid_moves b me ∧
        check_victory (playMove b me m) = true := by
  rintro tmo me b inv ⟨m0, hm0, hw0⟩
  have hne : generate_all_valid_moves b me ≠ [] := by
    intro h
    rw [h] at hm0
    exact absurd hm0 (List.not_mem_nil m0)
  have hfind : ((generate_all_valid_moves b me).find?
      fun mm => check_victory (playMove b me mm)).isSome :=
    List.find?_isSome.mpr ⟨m0, hm0, hw0⟩
  obtain ⟨m, hm⟩ := Option.isSome_iff_exists.mp hfind
  refine ⟨m, ?_, List.mem_of_find?_eq_some hm, by simpa using List.find?_some hm⟩
  exact get_move_eq_of_root tmo me b inv (XR.fin 20000) m b 0 hne
    (minimax_root_win tmo me b (calculate_optimal_depth (pieces_played b)) 0 m hne hm)

/-- C5 witness: player 2 has circle, square, triangle on row 1 and wins with
the diamond at (1,3); `get_move` returns an immediately winning move. -/
theorem claim_C5_witness :
    ∃ m, get_move tmoF false Player.player2 winInOneBoard2 initialInventory =
        some m ∧
      m ∈ generate_all_valid_moves winInOneBoard2 Player.player2 ∧
      check_victory (playMove winInOneBoard2 Player.player2 m) = true :=
  claim_C5 tmoF Player.player2 winInOneBoard2 initialInventory
    ⟨(1, 3, Shape.diamond), by decide, by decide⟩

/-- C6: when no legal move wins immediately, the opponent has exactly one
immediate threat, and some legal move lands on a resolving vacancy of it and
leaves the opponent with zero immediate threats after simulation, `get_move`
(no internal fault) returns such a safe blocking move. -/
theorem claim_C6 :
    ∀ (tmo : Nat → Bool) (me : Player) (b : Board) (inv : Player → Shape → Int),
      (∀ m ∈ generate_all_valid_moves b me, check_victory (playMove b me m) = false) →
      (find_immediate_threats b me.other).length = 1 →
      (∃ m ∈ generate_all_valid_moves b me,
        (((find_immediate_threats b me.other).any fun tp =>
          decide ((m.1, m.2.1) ∈ tp)) = true) ∧
        (find_immediate_threats (playMove b me m) me.other).length = 0) →
      ∃ m, get_move tmo false me b inv = some m ∧
        m ∈ generate_all_valid_moves b me ∧
        (((find_immediate_threats b me.other).any fun tp =>
          decide ((m.1, m.2.1) ∈ tp)) = true) ∧
        (find_immediate_threats (playMove b me m) me.other).length = 0 := by
  rintro tmo me b inv hnowin hone ⟨m0, hm0, hb0, hz0⟩
  have hne : generate_all_valid_moves b me ≠ [] := by
    intro h
    rw [h] at hm0
    exact absurd hm0 (List.not_mem_nil m0)
  have hnofind : (generate_all_valid_moves b me).find?
      (fun mm => check_victory (playMove b me mm)) = none :=
    List.find?_eq_none.mpr fun x hx => by simp [hnowin x hx]
  have hfind : ((generate_all_valid_moves b me).find? fun mm =>
      ((find_immediate_threats b me.other).any fun tp =>
        decide ((mm.1, mm.2.1) ∈ tp)) &&
      decide ((find_immediate_threats (playMove b me mm) me.other).length = 0)).isSome :=
    List.find?_isSome.mpr ⟨m0, hm0, by simp [hb0, hz0]⟩
  obtain ⟨m, hm⟩ := Option.isSome_iff_exists.mp hfind
  have hpred := List.find?_some hm
  simp only [Bool.and_eq_true, decide_eq_true_eq] at hpred
  refine ⟨m, ?_, List.mem_of_find?_eq_some hm, hpred.1, hpred.2⟩
  exact get_move_eq_of_root tmo me b inv (XR.fin 15000) m b 0 hne
    (minimax_root_safe_block tmo me b (calculate_optimal_depth (pieces_played b)) 0 m
      hne hnofind hone hm)

/-- C6 witness: on `blockBoard` (player 1 threatens row 0; the winning
diamond at (0,3) is blocked for player 2 by the column-3 diamond), player 2
has no winning move, the opponent has exactly one immediate threat, and the
safe block with a triangle at (0,3) exists; `get_move` returns such a move. -/
theorem claim_C6_witness :
    ∃ m, get_move tmoF false Player.player2 blockBoard initialInventory = some m ∧
      m ∈ generate_all_valid_moves blockBoard Player.player2 ∧
      (((find_immediate_threats blockBoard Player.player2.other).any fun tp =>
        decide ((m.1, m.2.1) ∈ tp)) = true) ∧
      (find_immediate_threats (playMove blockBoard Player.player2 m)
        Player.player2.other).length = 0 :=
  claim_C6 tmoF Player.player2 blockBoard initialInventory (by decide) (by decide)
    ⟨(0, 3, Shape.triangle), by decide, by decide, by decide⟩

/-- C1 (amended): for every deadline oracle, fault flag, player, board and
inventory snapshot, `get_move` returns `None` exactly when the AI's own legal
move set `_generate_all_valid_moves` (which ignores the inventory snapshot)
is empty at entry, and otherwise returns a member of that set — on every
return path: tactical overrides, minimax fallback, first-move fallback, and
the emergency selector. -/
theorem claim_C1_amended :
    ∀ (tmo : Nat → Bool) (fault : Bool) (me : Player) (b : Board)
      (inv : Player → Shape → Int),
      (get_move tmo fault me b inv = none ↔ generate_all_valid_moves b me = []) ∧
      ∀ m : Move, get_move tmo fault me b inv = some m →
        m ∈ generate_all_valid_moves b me := by
  intro tmo fault me b inv
  by_cases hne : generate_all_valid_moves b me = []
  · constructor
    · constructor
      · intro _
        exact hne
      · intro _
        simp [get_move, hne]
    · intro m hm
      simp [get_move, hne] at hm
  · rcases fault with _ | _
    · rcases hr : minimax_root tmo me b (calculate_optimal_depth (pieces_played b)) 0
        with ⟨s, mv, b', t'⟩
      rcases mv with _ | m0
      · have hg : get_move tmo false me b inv =
            emergency_move_selection (generate_all_valid_moves b me) := by
          simp only [get_move]
          rw [if_neg hne, hr]
          simp
        constructor
        · rw [hg]
          constructor
          · intro h
            have := emergency_isSome (generate_all_valid_moves b me) hne
            rw [h] at this
            exact absurd this (by simp)
          · intro h
            exact absurd h hne
        · intro m hm
          rw [hg] at hm
          exact emergency_mem _ m hm
      · have hg : get_move tmo false me b inv = some m0 :=
          get_move_eq_of_root tmo me b inv s m0 b' t' hne hr
        constructor
        · rw [hg]
          constructor
          · intro h
            exact absurd h (by simp)
          · intro h
            exact absurd h hne
        · intro m hm
          rw [hg] at hm
          injection hm with h1
          subst h1
          have : (minimax_root tmo me b
              (calculate_optimal_depth (pieces_played b)) 0).2.1 = some m0 := by
            rw [hr]
          exact minimax_root_mem tmo me b _ 0 m0 this
    · have hg : get_move tmo true me b inv =
          emergency_move_selection (generate_all_valid_moves b me) := by
        simp only [get_move]
        rw [if_neg hne]
        simp
      constructor
      · rw [hg]
        constructor
        · intro h
          have := emergency_isSome (generate_all_valid_moves b me) hne
          rw [h] at this
          exact absurd this (by simp)
        · intro h
          exact absurd h hne
      · intro m hm
        rw [hg] at hm
        exact emergency_mem _ m hm

/-- C1 witness: on the win-in-one board, the controller returns the winning
move (0,3,diamond), and the amended theorem places it in the legal move set. -/
theorem claim_C1_witness :
    ((0, 3, Shape.diamond) : Move) ∈
      generate_all_valid_moves winInOneBoard Player.player1 :=
  (claim_C1_amended tmoF false Player.player1 winInOneBoard invZero).2
    (0, 3, Shape.diamond) (by decide)

/-- C1 counterexample: with the all-zero inventory snapshot, the spec's
inventory-filtered `legalMoves` is empty (so the claim demands `None`), yet
`get_move` — which never reads the inventory — returns the winning move. -/
theorem claim_C1_counterexample :
    legalMovesSpec winInOneBoard invZero Player.player1 = [] ∧
      get_move tmoF false Player.player1 winInOneBoard invZero =
        some (0, 3, Shape.diamond) :=
  ⟨by decide, by decide⟩

end Quantik
